import Mathlib

/-!
# Device profile and device report: marshal / unmarshal / validate

A shallow embedding of `models/deviceprofile.go` and `models/devicereport.go`.

Conventions of the embedding

* A Go `error` result is an `Option Error` (`none` is `nil`); a Go `([]byte, error)` result is an
  `Except Error Json`.
* The pointer receiver of `UnmarshalJSON` becomes state passing: the function takes the destination
  value and returns the destination after the call together with the error.
* The text layer of `encoding/json` is not modelled: the bytes handed to `json.Unmarshal` are a
  `Data` (rejected by the syntax check, or a JSON value), the bytes produced by `json.Marshal` are
  the JSON value they spell. Go strings are taken to be valid text.
* A repeated object key is decoded, as `encoding/json` does it, into what the earlier member
  left in the field: an array is decoded into the elements that the backing array of the slice
  holds already, and only past these into new elements.
* The types declared outside these two files (`DescribedObject`, `Timestamps`, `DeviceResource`,
  `ProfileResource`, the body of `Command`) are type parameters, and the code that handles them
  (their JSON codecs, the reflective `validate`) is collected in `Collaborators`.
-/

namespace models

/-! ## Values shared by both files -/

/-- A JSON value. Object members keep their order and may repeat a key. -/
inductive Json where
  | null
  | bool (b : Bool)
  | num (n : Int)
  | str (s : String)
  | arr (items : List Json)
  | obj (members : List (String × Json))

/-- The bytes given to `json.Unmarshal`: rejected by the syntax check, or spelling a JSON value. -/
inductive Data where
  | malformed (msg : String)
  | wellFormed (value : Json)

/-- Go error values that occur in the two files. -/
inductive Error where
  | ErrContractInvalid (msg : String)
  | SyntaxError (msg : String)
  | UnmarshalTypeError (value : String) (field : String)
  | MarshalerError (typeName : String) (err : Error)
  | Other (msg : String)
  deriving DecidableEq, Repr

/-- Modelled from the spec: `NewErrContractInvalid` is declared outside src; it builds the
contract-invalid error kind carrying the given message. -/
def NewErrContractInvalid (message : String) : Error :=
  Error.ErrContractInvalid message

/-- A Go slice value: the nil slice, or a (possibly zero-length) sequence of elements. -/
inductive Slice (α : Type) where
  | nil
  | mk (items : List α)
  deriving DecidableEq, Repr

/-- The elements a `range` loop visits. -/
def Slice.elems {α : Type} : Slice α → List α
  | Slice.nil => []
  | Slice.mk items => items

/-- Go `len`. -/
def Slice.len {α : Type} (s : Slice α) : Nat :=
  s.elems.length

/-- Modelled from the spec: `Command` is declared outside src; a named command, everything but
its name being the parameter `R`. -/
structure Command (R : Type) where
  Name : String
  rest : R
  deriving DecidableEq, Repr

/-! ## deviceprofile.go -/

/-- The struct `DeviceProfile`. -/
structure DeviceProfile (DO DR PR R : Type) where
  DescribedObject : DO
  Id : String
  Name : String
  Manufacturer : String
  Model : String
  Labels : Slice String
  DeviceResources : Slice DR
  DeviceCommands : Slice PR
  CoreCommands : Slice (Command R)
  isValidated : Bool

/-- The code of this package and of `encoding/json` that the two files call on the parameter
types: the reflective `validate` of the package, and the JSON codecs of the embedded and element
types. The fields of an embedded struct are inlined at the top level of the enclosing object: it
is encoded as the members it contributes to that object, and decoded one member at a time from
the members that select none of the fields of the enclosing struct (unknown keys leave it as it
is). An element of a sequence is decoded by `unmarshal...` into a new element and by
`unmarshal...Into` into an element that the backing array of the slice holds already. -/
structure Collaborators (DO DR PR R : Type) where
  validate : DeviceProfile DO DR PR R → Option Error
  zeroDescribedObject : DO
  marshalDescribedObject : DO → Except Error (List (String × Json))
  unmarshalDescribedObjectMember : DO → String → Json → Except Error DO
  marshalDeviceResource : DR → Except Error Json
  unmarshalDeviceResource : Json → Except Error DR
  unmarshalDeviceResourceInto : DR → Json → Except Error DR
  marshalProfileResource : PR → Except Error Json
  unmarshalProfileResource : Json → Except Error PR
  unmarshalProfileResourceInto : PR → Json → Except Error PR
  marshalCommand : Command R → Except Error Json
  unmarshalCommand : Json → Except Error (Command R)
  unmarshalCommandInto : Command R → Json → Except Error (Command R)

section Validate

variable {DO DR PR R : Type}

/-- The loop of `Validate` over `dp.CoreCommands`, the Go map `cmds` being an association list:
`none` when the loop runs to its end, the error of the early return otherwise. -/
def scanCommands (cmds : List (String × Nat)) : List (Command R) → Option Error
  | [] => none
  | c :: rest =>
    match cmds.lookup c.Name with
    | none => scanCommands ((c.Name, 1) :: cmds) rest
    | some _ => some (NewErrContractInvalid "duplicate names in device profile commands")

/-- The method `DeviceProfile.Validate` (value receiver: the profile is not changed). -/
def Validate (env : Collaborators DO DR PR R) (dp : DeviceProfile DO DR PR R) :
    Bool × Option Error :=
  if !dp.isValidated then
    if dp.Id == "" && dp.Name == "" then
      (false, some (NewErrContractInvalid "Device ID and Name are both blank"))
    else
      match scanCommands [] dp.CoreCommands.elems with
      | some err => (false, some err)
      | none =>
        match env.validate dp with
        | some err => (false, some err)
        | none => (true, none)
  else
    (dp.isValidated, none)

/-- The error of the blank-identity check. -/
def errBlankIdentity : Error :=
  NewErrContractInvalid "Device ID and Name are both blank"

/-- The error of the duplicate-name check. -/
def errDuplicateNames : Error :=
  NewErrContractInvalid "duplicate names in device profile commands"

/-- No two positions of the sequence hold commands of the same name. -/
def DistinctNames (cs : List (Command R)) : Prop :=
  ∀ i j : Fin cs.length, i ≠ j → (cs.get i).Name ≠ (cs.get j).Name

end Validate

/-! ### What `encoding/json` does with the struct types of the two files -/

/-- Run a fallible function over a list, stopping at the first error. -/
def mapExcept {α β : Type} (f : α → Except Error β) : List α → Except Error (List β)
  | [] => Except.ok []
  | x :: rest =>
    match f x with
    | Except.error err => Except.error err
    | Except.ok y =>
      match mapExcept f rest with
      | Except.error err => Except.error err
      | Except.ok ys => Except.ok (y :: ys)

/-- The name `encoding/json` gives the kind of a JSON value in a type error. -/
def Json.kind : Json → String
  | Json.null => "null"
  | Json.bool _ => "bool"
  | Json.num _ => "number"
  | Json.str _ => "string"
  | Json.arr _ => "array"
  | Json.obj _ => "object"

/-- The JSON names of the fields that `MarshalJSON` and `UnmarshalJSON` declare at the top level
of the profile object. -/
def profileKeys : List String :=
  ["id", "name", "manufacturer", "model", "labels", "deviceResources", "deviceCommands",
    "coreCommands"]

/-- The members an embedded struct contributes to the enclosing object: a field of the embedded
struct is hidden by a field of the enclosing struct that has the same JSON name. -/
def promote (outer : List String) (embedded : List (String × Json)) : List (String × Json) :=
  embedded.filter (fun m => !outer.contains m.1)

/-- Encoding of a `*string` field tagged `omitempty`: a nil pointer is left out. -/
def ptrOmitEmpty (key : String) : Option String → List (String × Json)
  | none => []
  | some s => [(key, Json.str s)]

/-- Encoding of a `*string` field without `omitempty`: a nil pointer is JSON null. -/
def ptrMember (key : String) : Option String → List (String × Json)
  | none => [(key, Json.null)]
  | some s => [(key, Json.str s)]

/-- Encoding of a slice field tagged `omitempty`: a slice of length zero is left out. -/
def sliceOmitEmpty {α : Type} (key : String) (enc : α → Except Error Json) (s : Slice α) :
    Except Error (List (String × Json)) :=
  if s.len = 0 then Except.ok []
  else
    match mapExcept enc s.elems with
    | Except.error err => Except.error err
    | Except.ok items => Except.ok [(key, Json.arr items)]

/-- Encoding of a `[]string` field without `omitempty`: the nil slice is JSON null, any other
slice the array of its elements. -/
def stringsMember (key : String) : Slice String → List (String × Json)
  | Slice.nil => [(key, Json.null)]
  | Slice.mk items => [(key, Json.arr (items.map Json.str))]

/-- Case folding of one character of an object key, as a code point: the letters a-z, the long
s (U+017F) and the Kelvin sign (U+212A) fold to the upper-case ASCII letter. -/
def foldRune (c : Char) : Nat :=
  if 97 ≤ c.toNat ∧ c.toNat ≤ 122 then c.toNat - 32
  else if c.toNat = 0x17F then 83
  else if c.toNat = 0x212A then 75
  else c.toNat

/-- Case folding of an object key. -/
def foldName (s : String) : List Nat :=
  s.data.map foldRune

/-- An object key selects the struct field of the given (ASCII) JSON name: the match is
case-insensitive. -/
def matchesField (key field : String) : Bool :=
  foldName key == foldName field

/-- Decoding into a `*string` field: null gives the nil pointer, a string a pointer to it, any
other value is a type error. -/
def decodeStringPtr (field : String) : Json → Except Error (Option String)
  | Json.null => Except.ok none
  | Json.str s => Except.ok (some s)
  | v => Except.error (Error.UnmarshalTypeError v.kind field)

/-- Decoding into a fresh `string` element: null leaves the zero value. -/
def decodeString (field : String) : Json → Except Error String
  | Json.null => Except.ok ""
  | Json.str s => Except.ok s
  | v => Except.error (Error.UnmarshalTypeError v.kind field)

/-- Decoding into a `string` element that the backing array of a slice holds already: null
leaves it as it is. -/
def decodeStringInto (field : String) (old : String) : Json → Except Error String
  | Json.null => Except.ok old
  | Json.str s => Except.ok s
  | v => Except.error (Error.UnmarshalTypeError v.kind field)

/-- Decoding of the items of an array into the elements `old` that the backing array of the
slice holds already, in their order (`into`), and past these into new elements (`fresh`). -/
def decodeItems {α : Type} (into : α → Json → Except Error α) (fresh : Json → Except Error α) :
    List α → List Json → Except Error (List α)
  | _, [] => Except.ok []
  | [], item :: rest => mapExcept fresh (item :: rest)
  | e :: old, item :: rest =>
    match into e item with
    | Except.error err => Except.error err
    | Except.ok x =>
      match decodeItems into fresh old rest with
      | Except.error err => Except.error err
      | Except.ok xs => Except.ok (x :: xs)

/-- Decoding into a slice field whose backing array holds the elements `old` (those of the
slice, then those past its length): null gives the nil slice, an empty array a new empty slice,
any other array the slice of its items decoded into the old elements and past these into new
ones, and any other value is a type error. The result is the slice together with the elements
that its backing array holds past its length: the old elements that no item was decoded into. -/
def decodeSlice {α : Type} (field : String) (into : α → Json → Except Error α)
    (fresh : Json → Except Error α) (old : List α) : Json → Except Error (Slice α × List α)
  | Json.null => Except.ok (Slice.nil, [])
  | Json.arr [] => Except.ok (Slice.mk [], [])
  | Json.arr (item :: rest) =>
    match decodeItems into fresh old (item :: rest) with
    | Except.error err => Except.error err
    | Except.ok xs => Except.ok (Slice.mk xs, old.drop (item :: rest).length)
  | v => Except.error (Error.UnmarshalTypeError v.kind field)

section Codec

variable {DO DR PR R : Type}

/-- The anonymous struct `test` of `DeviceProfile.MarshalJSON`. -/
structure ProfileTest (DO DR PR R : Type) where
  DescribedObject : DO
  Id : Option String
  Name : Option String
  Manufacturer : Option String
  Model : Option String
  Labels : Slice String
  DeviceResources : Slice DR
  DeviceCommands : Slice PR
  CoreCommands : Slice (Command R)

/-- The call `json.Marshal(test)` of `DeviceProfile.MarshalJSON`: the members of the embedded
struct, then the eight tagged fields in their order, each under `omitempty`. -/
def marshalProfileTest (env : Collaborators DO DR PR R) (test : ProfileTest DO DR PR R) :
    Except Error Json :=
  match env.marshalDescribedObject test.DescribedObject with
  | Except.error err => Except.error err
  | Except.ok embedded =>
    match sliceOmitEmpty "labels" (fun s => Except.ok (Json.str s)) test.Labels with
    | Except.error err => Except.error err
    | Except.ok labels =>
      match sliceOmitEmpty "deviceResources" env.marshalDeviceResource test.DeviceResources with
      | Except.error err => Except.error err
      | Except.ok resources =>
        match sliceOmitEmpty "deviceCommands" env.marshalProfileResource test.DeviceCommands with
        | Except.error err => Except.error err
        | Except.ok commands =>
          match sliceOmitEmpty "coreCommands" env.marshalCommand test.CoreCommands with
          | Except.error err => Except.error err
          | Except.ok core =>
            Except.ok (Json.obj (promote profileKeys embedded ++ ptrOmitEmpty "id" test.Id ++
              ptrOmitEmpty "name" test.Name ++ ptrOmitEmpty "manufacturer" test.Manufacturer ++
              ptrOmitEmpty "model" test.Model ++ labels ++ resources ++ commands ++ core))

/-- The method `DeviceProfile.MarshalJSON`. -/
def MarshalJSON (env : Collaborators DO DR PR R) (dp : DeviceProfile DO DR PR R) :
    Except Error Json :=
  let test : ProfileTest DO DR PR R :=
    { DescribedObject := dp.DescribedObject, Labels := dp.Labels, Id := none, Name := none,
      Manufacturer := none, Model := none, DeviceResources := Slice.nil,
      DeviceCommands := Slice.nil, CoreCommands := Slice.nil }
  let test := if dp.Id != "" then { test with Id := some dp.Id } else test
  let test := if dp.Name != "" then { test with Name := some dp.Name } else test
  let test :=
    if dp.Manufacturer != "" then { test with Manufacturer := some dp.Manufacturer } else test
  let test := if dp.Model != "" then { test with Model := some dp.Model } else test
  let test :=
    if dp.DeviceResources.len > 0 then { test with DeviceResources := dp.DeviceResources }
    else test
  let test :=
    if dp.DeviceCommands.len > 0 then { test with DeviceCommands := dp.DeviceCommands } else test
  let test :=
    if dp.CoreCommands.len > 0 then { test with CoreCommands := dp.CoreCommands } else test
  marshalProfileTest env test

/-- The elements that the backing arrays of the four slice fields of an `Alias` hold past the
length of the slice. None at first; they are what is left of a longer array decoded earlier
under the same key. -/
structure Spare (DR PR R : Type) where
  Labels : List String := []
  DeviceResources : List DR := []
  DeviceCommands : List PR := []
  CoreCommands : List (Command R) := []

/-- The struct `Alias` of `DeviceProfile.UnmarshalJSON`. The last field is not a field of the Go
struct: it is the part of the backing arrays of the four slices that lies past their length. -/
structure Alias (DO DR PR R : Type) where
  DescribedObject : DO
  Id : Option String
  Name : Option String
  Manufacturer : Option String
  Model : Option String
  Labels : Slice String
  DeviceResources : Slice DR
  DeviceCommands : Slice PR
  CoreCommands : Slice (Command R)
  spare : Spare DR PR R := {}

/-- The value `Alias{}`. -/
def Alias.zero (env : Collaborators DO DR PR R) : Alias DO DR PR R :=
  { DescribedObject := env.zeroDescribedObject, Id := none, Name := none, Manufacturer := none,
    Model := none, Labels := Slice.nil, DeviceResources := Slice.nil,
    DeviceCommands := Slice.nil, CoreCommands := Slice.nil }

/-- Decoding of one object member into an `Alias`: the key selects one of the eight tagged
fields, and otherwise the member goes to the embedded struct (which ignores unknown keys). A
pointer field is set anew; a slice field is decoded into the backing array it has already. -/
def decodeMember (env : Collaborators DO DR PR R) (a : Alias DO DR PR R) (key : String)
    (v : Json) : Except Error (Alias DO DR PR R) :=
  if matchesField key "id" then
    match decodeStringPtr "id" v with
    | Except.error err => Except.error err
    | Except.ok p => Except.ok { a with Id := p }
  else if matchesField key "name" then
    match decodeStringPtr "name" v with
    | Except.error err => Except.error err
    | Except.ok p => Except.ok { a with Name := p }
  else if matchesField key "manufacturer" then
    match decodeStringPtr "manufacturer" v with
    | Except.error err => Except.error err
    | Except.ok p => Except.ok { a with Manufacturer := p }
  else if matchesField key "model" then
    match decodeStringPtr "model" v with
    | Except.error err => Except.error err
    | Except.ok p => Except.ok { a with Model := p }
  else if matchesField key "labels" then
    match decodeSlice "labels" (decodeStringInto "labels") (decodeString "labels")
      (a.Labels.elems ++ a.spare.Labels) v with
    | Except.error err => Except.error err
    | Except.ok r => Except.ok { a with Labels := r.1, spare := { a.spare with Labels := r.2 } }
  else if matchesField key "deviceResources" then
    match decodeSlice "deviceResources" env.unmarshalDeviceResourceInto
      env.unmarshalDeviceResource (a.DeviceResources.elems ++ a.spare.DeviceResources) v with
    | Except.error err => Except.error err
    | Except.ok r =>
      Except.ok { a with
        DeviceResources := r.1, spare := { a.spare with DeviceResources := r.2 } }
  else if matchesField key "deviceCommands" then
    match decodeSlice "deviceCommands" env.unmarshalProfileResourceInto
      env.unmarshalProfileResource (a.DeviceCommands.elems ++ a.spare.DeviceCommands) v with
    | Except.error err => Except.error err
    | Except.ok r =>
      Except.ok { a with
        DeviceCommands := r.1, spare := { a.spare with DeviceCommands := r.2 } }
  else if matchesField key "coreCommands" then
    match decodeSlice "coreCommands" env.unmarshalCommandInto env.unmarshalCommand
      (a.CoreCommands.elems ++ a.spare.CoreCommands) v with
    | Except.error err => Except.error err
    | Except.ok r =>
      Except.ok { a with CoreCommands := r.1, spare := { a.spare with CoreCommands := r.2 } }
  else
    match env.unmarshalDescribedObjectMember a.DescribedObject key v with
    | Except.error err => Except.error err
    | Except.ok d => Except.ok { a with DescribedObject := d }

/-- Decoding of the members of an object, in their order, each into what the earlier ones left;
when members fail, the error is that of the first one that fails. -/
def decodeMembers (env : Collaborators DO DR PR R) :
    Alias DO DR PR R → List (String × Json) → Except Error (Alias DO DR PR R)
  | a, [] => Except.ok a
  | a, m :: rest =>
    match decodeMember env a m.1 m.2 with
    | Except.error err => Except.error err
    | Except.ok a1 => decodeMembers env a1 rest

/-- The call `json.Unmarshal(data, &a)` of `DeviceProfile.UnmarshalJSON`. -/
def jsonUnmarshalAlias (env : Collaborators DO DR PR R) (a : Alias DO DR PR R) :
    Data → Except Error (Alias DO DR PR R)
  | Data.malformed msg => Except.error (Error.SyntaxError msg)
  | Data.wellFormed Json.null => Except.ok a
  | Data.wellFormed (Json.obj members) => decodeMembers env a members
  | Data.wellFormed v => Except.error (Error.UnmarshalTypeError v.kind "Alias")

/-- The assignments of `UnmarshalJSON` between the structural decoding and the call of
`Validate`: the four string fields are overwritten only from a non-nil pointer, the embedded
struct and the four slices always. -/
def populate (dp : DeviceProfile DO DR PR R) (a : Alias DO DR PR R) : DeviceProfile DO DR PR R :=
  let dp := match a.Id with
    | some s => { dp with Id := s }
    | none => dp
  let dp := match a.Name with
    | some s => { dp with Name := s }
    | none => dp
  let dp := match a.Manufacturer with
    | some s => { dp with Manufacturer := s }
    | none => dp
  let dp := match a.Model with
    | some s => { dp with Model := s }
    | none => dp
  { dp with
    DescribedObject := a.DescribedObject, Labels := a.Labels,
    DeviceResources := a.DeviceResources, DeviceCommands := a.DeviceCommands,
    CoreCommands := a.CoreCommands }

/-- The method `DeviceProfile.UnmarshalJSON`: the destination after the call, and the error. -/
def UnmarshalJSON (env : Collaborators DO DR PR R) (dp : DeviceProfile DO DR PR R)
    (data : Data) : DeviceProfile DO DR PR R × Option Error :=
  match jsonUnmarshalAlias env (Alias.zero env) data with
  | Except.error err => (dp, some err)
  | Except.ok a =>
    let dp := populate dp a
    let r := Validate env dp
    ({ dp with isValidated := r.1 }, r.2)

end Codec

/-! ## devicereport.go -/

/-- The struct `DeviceReport`. -/
structure DeviceReport (TS : Type) where
  Timestamps : TS
  Id : String
  Name : String
  Device : String
  Action : String
  Expected : Slice String

/-- The anonymous struct `test` of `DeviceReport.MarshalJSON`. -/
structure ReportTest (TS : Type) where
  Timestamps : TS
  Id : String
  Name : Option String
  Device : Option String
  Action : Option String
  Expected : Slice String

/-- The JSON names of the fields that `DeviceReport.MarshalJSON` declares at the top level. -/
def reportKeys : List String :=
  ["id", "name", "device", "action", "expected"]

/-- The call `json.Marshal(test)` of `DeviceReport.MarshalJSON`; the parameter is the encoding
of the embedded `Timestamps`. No field is tagged `omitempty`. -/
def marshalReportTest {TS : Type} (marshalTimestamps : TS → Except Error (List (String × Json)))
    (test : ReportTest TS) : Except Error Json :=
  match marshalTimestamps test.Timestamps with
  | Except.error err => Except.error err
  | Except.ok embedded =>
    Except.ok (Json.obj (promote reportKeys embedded ++ [("id", Json.str test.Id)] ++
      ptrMember "name" test.Name ++ ptrMember "device" test.Device ++
      ptrMember "action" test.Action ++ stringsMember "expected" test.Expected))

/-- The method `DeviceReport.MarshalJSON`. -/
def DeviceReport.MarshalJSON {TS : Type}
    (marshalTimestamps : TS → Except Error (List (String × Json))) (dr : DeviceReport TS) :
    Except Error Json :=
  let test : ReportTest TS :=
    { Timestamps := dr.Timestamps, Id := dr.Id, Expected := dr.Expected, Name := none,
      Device := none, Action := none }
  let test := if dr.Name != "" then { test with Name := some dr.Name } else test
  let test := if dr.Device != "" then { test with Device := some dr.Device } else test
  let test := if dr.Action != "" then { test with Action := some dr.Action } else test
  marshalReportTest marshalTimestamps test

/-! ## A concrete choice of the collaborators

Used to evaluate the definitions on concrete inputs: the described object is its description,
a resource is a string, and a command has no content but its name. -/

/-- A command without further content. -/
def cmd (name : String) : Command Unit :=
  { Name := name, rest := () }

/-- Decoding of a command object: the member `name`, when it is a string. -/
def sampleUnmarshalCommand : Json → Except Error (Command Unit)
  | Json.obj members =>
    match members.lookup "name" with
    | some (Json.str s) => Except.ok (cmd s)
    | _ => Except.ok (cmd "")
  | Json.null => Except.ok (cmd "")
  | v => Except.error (Error.UnmarshalTypeError v.kind "Command")

/-- Decoding of a command object into a command that a slice holds already: the member `name`,
when it is a string, replaces the name. -/
def sampleUnmarshalCommandInto (old : Command Unit) : Json → Except Error (Command Unit)
  | Json.obj members =>
    match members.lookup "name" with
    | some (Json.str s) => Except.ok (cmd s)
    | _ => Except.ok old
  | Json.null => Except.ok old
  | v => Except.error (Error.UnmarshalTypeError v.kind "Command")

/-- Collaborators whose schema validator accepts every profile. -/
def sampleEnv : Collaborators String String String Unit where
  validate := fun _ => none
  zeroDescribedObject := ""
  marshalDescribedObject := fun d =>
    Except.ok (if d = "" then [] else [("description", Json.str d)])
  unmarshalDescribedObjectMember := fun d key v =>
    if matchesField key "description" then decodeString "description" v else Except.ok d
  marshalDeviceResource := fun r => Except.ok (Json.str r)
  unmarshalDeviceResource := decodeString "DeviceResource"
  unmarshalDeviceResourceInto := decodeStringInto "DeviceResource"
  marshalProfileResource := fun r => Except.ok (Json.str r)
  unmarshalProfileResource := decodeString "ProfileResource"
  unmarshalProfileResourceInto := decodeStringInto "ProfileResource"
  marshalCommand := fun c => Except.ok (Json.obj [("name", Json.str c.Name)])
  unmarshalCommand := sampleUnmarshalCommand
  unmarshalCommandInto := sampleUnmarshalCommandInto

/-- The same collaborators with a schema validator that rejects every profile. -/
def rejectingEnv : Collaborators String String String Unit :=
  { sampleEnv with validate := fun _ => some (Error.Other "schema") }

/-- The zero value of the profile type. -/
def zeroProfile : DeviceProfile String String String Unit :=
  { DescribedObject := "", Id := "", Name := "", Manufacturer := "", Model := "",
    Labels := Slice.nil, DeviceResources := Slice.nil, DeviceCommands := Slice.nil,
    CoreCommands := Slice.nil, isValidated := false }

/-- A profile without an empty string field and without an empty sequence. -/
def fullProfile : DeviceProfile String String String Unit :=
  { DescribedObject := "thermostat", Id := "p1", Name := "thermo", Manufacturer := "acme",
    Model := "t-1000", Labels := Slice.mk ["hvac"], DeviceResources := Slice.mk ["temp"],
    DeviceCommands := Slice.mk ["read"], CoreCommands := Slice.mk [cmd "A", cmd "B"],
    isValidated := false }

/-- The input `{"name":"n"}`. -/
def dataNamed : Data :=
  Data.wellFormed (Json.obj [("name", Json.str "n")])

/-- The input `{"name":""}`. -/
def dataBlankName : Data :=
  Data.wellFormed (Json.obj [("name", Json.str "")])

/-- The input `{"coreCommands":[{"name":"A"},{"name":"A"}]}`. -/
def dataDuplicates : Data :=
  Data.wellFormed (Json.obj [("coreCommands",
    Json.arr [Json.obj [("name", Json.str "A")], Json.obj [("name", Json.str "A")]])])

/-- The input `{"coreCommands":"not-an-array"}`. -/
def dataNotAnArray : Data :=
  Data.wellFormed (Json.obj [("coreCommands", Json.str "not-an-array")])

/-- The destination after decoding `{"name":"n"}` into the zero value: its flag is set. -/
def decodedOnce : DeviceProfile String String String Unit :=
  (UnmarshalJSON sampleEnv zeroProfile dataNamed).1

/-- The destination after decoding `{"name":"n"}` and then `{"name":""}` into it. -/
def decodedTwiceBlank : DeviceProfile String String String Unit :=
  (UnmarshalJSON sampleEnv decodedOnce dataBlankName).1

/-- A directly constructed profile with blank identity and a repeated command name. -/
def blankDuplicateProfile : DeviceProfile String String String Unit :=
  { zeroProfile with CoreCommands := Slice.mk [cmd "A", cmd "A"] }

/-- Every encoder of the collaborators succeeds on the parts of the profile. -/
def Encodable {DO DR PR R : Type} (env : Collaborators DO DR PR R)
    (dp : DeviceProfile DO DR PR R) : Prop :=
  (∃ ms, env.marshalDescribedObject dp.DescribedObject = Except.ok ms) ∧
  (∀ x ∈ dp.DeviceResources.elems, ∃ j, env.marshalDeviceResource x = Except.ok j) ∧
  (∀ x ∈ dp.DeviceCommands.elems, ∃ j, env.marshalProfileResource x = Except.ok j) ∧
  (∀ x ∈ dp.CoreCommands.elems, ∃ j, env.marshalCommand x = Except.ok j)

/-- A named profile with the command name `A` at the positions 0 and 1. -/
def namedDuplicateProfile : DeviceProfile String String String Unit :=
  { blankDuplicateProfile with Name := "n" }

/-- The zero value of the report type, with a number as its timestamps. -/
def zeroReport : DeviceReport Nat :=
  { Timestamps := 0, Id := "", Name := "", Device := "", Action := "", Expected := Slice.nil }

/-- Encoding of the sample timestamps: a single member, left out when zero. -/
def sampleMarshalTimestamps (t : Nat) : Except Error (List (String × Json)) :=
  Except.ok (if t = 0 then [] else [("created", Json.num t)])

/-- The value that the structural decoding uses for a field: that of the last member of the
object whose key selects the field. -/
def memberFor (field : String) : List (String × Json) → Option Json
  | [] => none
  | m :: rest =>
    match memberFor field rest with
    | some v => some v
    | none => if matchesField m.1 field then some m.2 else none

/-- The value that the input carries for a field; there is none when the input is not an
object. -/
def Data.memberFor (field : String) : Data → Option Json
  | Data.wellFormed (Json.obj members) => models.memberFor field members
  | _ => none

/-- A directly constructed destination that holds a name, a manufacturer and a model. -/
def acmeProfile : DeviceProfile String String String Unit :=
  { zeroProfile with Name := "old", Manufacturer := "acme", Model := "t-1000" }

/-- The input `{"name":"n","model":null}`. -/
def dataNamedNullModel : Data :=
  Data.wellFormed (Json.obj [("name", Json.str "n"), ("model", Json.null)])

/-- The input `{"name":"n","coreCommands":[{"name":"A"},{"name":"A"}]}`. -/
def dataNamedDuplicates : Data :=
  Data.wellFormed (Json.obj [("name", Json.str "n"), ("coreCommands",
    Json.arr [Json.obj [("name", Json.str "A")], Json.obj [("name", Json.str "A")]])])

/-- Decoding of the members that an embedded described object contributed, in their order. -/
def decodeEmbedded {DO DR PR R : Type} (env : Collaborators DO DR PR R) :
    DO → List (String × Json) → Except Error DO
  | d, [] => Except.ok d
  | d, m :: rest =>
    match env.unmarshalDescribedObjectMember d m.1 m.2 with
    | Except.error err => Except.error err
    | Except.ok d1 => decodeEmbedded env d1 rest

/-- The codecs of the collaborators give back the parts of the profile: the described object is
encoded to members whose keys select none of the eight profile fields and which decode to it
again, and every resource, device command and core command is encoded to a value that decodes to
it again. -/
def CodecsRoundTrip {DO DR PR R : Type} (env : Collaborators DO DR PR R)
    (p : DeviceProfile DO DR PR R) : Prop :=
  (∃ embedded, env.marshalDescribedObject p.DescribedObject = Except.ok embedded ∧
    (∀ m ∈ embedded, ∀ f ∈ profileKeys, matchesField m.1 f = false) ∧
    decodeEmbedded env env.zeroDescribedObject embedded = Except.ok p.DescribedObject) ∧
  (∀ x ∈ p.DeviceResources.elems, ∃ j, env.marshalDeviceResource x = Except.ok j ∧
    env.unmarshalDeviceResource j = Except.ok x) ∧
  (∀ x ∈ p.DeviceCommands.elems, ∃ j, env.marshalProfileResource x = Except.ok j ∧
    env.unmarshalProfileResource j = Except.ok x) ∧
  (∀ x ∈ p.CoreCommands.elems, ∃ j, env.marshalCommand x = Except.ok j ∧
    env.unmarshalCommand j = Except.ok x)

/-- Encode a profile and decode the result into a destination: the destination after the call
and the error of `UnmarshalJSON`, or nothing when `MarshalJSON` fails. -/
def roundTrip {DO DR PR R : Type} (env : Collaborators DO DR PR R)
    (dest p : DeviceProfile DO DR PR R) : Option (DeviceProfile DO DR PR R × Option Error) :=
  match MarshalJSON env p with
  | Except.error _ => none
  | Except.ok j => some (UnmarshalJSON env dest (Data.wellFormed j))

/-- A profile without an empty string field and without an empty sequence, with the command name
`A` twice. -/
def fullDuplicateProfile : DeviceProfile String String String Unit :=
  { fullProfile with CoreCommands := Slice.mk [cmd "A", cmd "A"] }

/-! ## Stringification and the calls on a profile variable -/

/-- The message text of an error (Go `Error()`). A marshaler error is the text that
`encoding/json` builds around the message of the error it wraps. -/
def Error.message : Error → String
  | Error.ErrContractInvalid msg => msg
  | Error.SyntaxError msg => msg
  | Error.UnmarshalTypeError value field =>
    "json: cannot unmarshal " ++ value ++ " into Go struct field " ++ field
  | Error.MarshalerError typeName err =>
    "json: error calling MarshalJSON for type " ++ typeName ++ ": " ++ err.message
  | Error.Other msg => msg

/-- The call `json.Marshal(v)` on a value whose type implements `Marshaler`, given the result of
`v.MarshalJSON()`: an error is wrapped into a marshaler error that names the type, an encoding
is returned as its text. The parameter `text` is the text layer of `encoding/json`. -/
def jsonMarshal (text : Json → String) (typeName : String) (result : Except Error Json) :
    Except Error String :=
  match result with
  | Except.error err => Except.error (Error.MarshalerError typeName err)
  | Except.ok j => Except.ok (text j)

/-- The method `DeviceProfile.String`. -/
def DeviceProfile.String {DO DR PR R : Type} (text : Json → String)
    (env : Collaborators DO DR PR R) (dp : DeviceProfile DO DR PR R) : String :=
  match jsonMarshal text "models.DeviceProfile" (MarshalJSON env dp) with
  | Except.error err => err.message
  | Except.ok out => out

/-- The method `DeviceReport.String`. -/
def DeviceReport.String {TS : Type} (text : Json → String)
    (marshalTimestamps : TS → Except Error (List (String × Json))) (dr : DeviceReport TS) :
    String :=
  match jsonMarshal text "models.DeviceReport" (DeviceReport.MarshalJSON marshalTimestamps dr) with
  | Except.error err => err.message
  | Except.ok out => out

/-- The methods of `DeviceProfile`. -/
inductive Method where
  | MarshalJSON
  | UnmarshalJSON (data : Data)
  | Validate
  | String

/-- The variable a method is called on, after the call: `UnmarshalJSON` has a pointer receiver
and writes to it, the other three have a value receiver and work on a copy. -/
def receiverAfter {DO DR PR R : Type} (env : Collaborators DO DR PR R)
    (dp : DeviceProfile DO DR PR R) : Method → DeviceProfile DO DR PR R
  | Method.UnmarshalJSON data => (UnmarshalJSON env dp data).1
  | Method.MarshalJSON => dp
  | Method.Validate => dp
  | Method.String => dp

/-- A text layer for the concrete inputs: it spells the empty object and abbreviates every other
value by its kind. -/
def sampleText : Json → String
  | Json.obj [] => "{}"
  | v => "<" ++ v.kind ++ ">"

/-- Collaborators whose described object cannot be encoded. -/
def failingEnv : Collaborators String String String Unit :=
  { sampleEnv with marshalDescribedObject := fun _ => Except.error (Error.Other "unsupported") }

/-- A directly constructed named profile with two distinct command names. -/
def namedProfile : DeviceProfile String String String Unit :=
  { zeroProfile with Name := "n", CoreCommands := Slice.mk [cmd "A", cmd "B"] }

/-- A sequence with the command name `A` at the positions 0 and 2, which are not adjacent. -/
def apartDuplicates : Slice (Command Unit) :=
  Slice.mk [cmd "A", cmd "B", cmd "A"]

section ValidateLemmas

variable {DO DR PR R : Type}

/-- A key is missing from the map exactly when no entry carries it. -/
theorem lookup_eq_none_iff_keys (cmds : List (String × Nat)) (k : String) :
    cmds.lookup k = none ↔ k ∉ cmds.map Prod.fst := by
  induction cmds with
  | nil => simp
  | cons p rest ih =>
    obtain ⟨k1, v1⟩ := p
    rw [List.lookup_cons]
    by_cases hk : k = k1
    · subst hk
      simp
    · have hb : (k == k1) = false := by simpa using hk
      simp [hb, ih, hk]

/-- The loop reports nothing but the duplicate-name error. -/
theorem scanCommands_some (cmds : List (String × Nat)) (cs : List (Command R)) (err : Error)
    (h : scanCommands cmds cs = some err) : err = errDuplicateNames := by
  induction cs generalizing cmds with
  | nil => simp [scanCommands] at h
  | cons c rest ih =>
    unfold scanCommands at h
    split at h
    · exact ih _ h
    · simpa [errDuplicateNames] using h.symm

/-- The loop runs to its end exactly when no name is in the map already and no name repeats. -/
theorem scanCommands_eq_none_iff (cmds : List (String × Nat)) (cs : List (Command R)) :
    scanCommands cmds cs = none ↔
      (∀ c ∈ cs, c.Name ∉ cmds.map Prod.fst) ∧ (cs.map (fun c => c.Name)).Nodup := by
  induction cs generalizing cmds with
  | nil => simp [scanCommands]
  | cons c rest ih =>
    unfold scanCommands
    cases hl : cmds.lookup c.Name with
    | some v =>
      simp only [false_iff, reduceCtorEq]
      intro h
      have h1 := h.1 c (List.mem_cons_self _ _)
      rw [← lookup_eq_none_iff_keys, hl] at h1
      simp at h1
    | none =>
      have hc := (lookup_eq_none_iff_keys cmds c.Name).1 hl
      rw [ih, List.map_cons, List.map_cons, List.nodup_cons]
      show (∀ a ∈ rest, a.Name ∉ c.Name :: List.map Prod.fst cmds) ∧ _ ↔ _
      constructor
      · rintro ⟨h1, h2⟩
        refine ⟨?_, ?_, h2⟩
        · intro a ha
          rcases List.mem_cons.1 ha with rfl | ha
          · exact hc
          · intro hm
            exact h1 a ha (List.mem_cons_of_mem _ hm)
        · intro hm
          obtain ⟨a, ha, hn⟩ := List.mem_map.1 hm
          exact h1 a ha (by simp [hn])
      · rintro ⟨h1, h2, h3⟩
        refine ⟨?_, h3⟩
        intro a ha hm
        rcases List.mem_cons.1 hm with hn | hm
        · exact h2 (List.mem_map.2 ⟨a, ha, hn⟩)
        · exact h1 a (List.mem_cons_of_mem _ ha) hm

end ValidateLemmas

/-- Distinctness by positions is distinctness of the list of names. -/
theorem distinctNames_iff_nodup {R : Type} (cs : List (Command R)) :
    DistinctNames cs ↔ (cs.map (fun c => c.Name)).Nodup := by
  unfold DistinctNames
  rw [List.nodup_iff_injective_get]
  constructor
  · intro h i j hij
    by_contra hne
    have hi : i.1 < cs.length := by simpa using i.2
    have hj : j.1 < cs.length := by simpa using j.2
    apply h ⟨i.1, hi⟩ ⟨j.1, hj⟩
    · intro heq
      apply hne
      apply Fin.ext
      simpa using congrArg Fin.val heq
    · simpa using hij
  · intro h i j hij hname
    apply hij
    have hi : i.1 < (cs.map (fun c => c.Name)).length := by simp
    have hj : j.1 < (cs.map (fun c => c.Name)).length := by simp
    have := @h ⟨i.1, hi⟩ ⟨j.1, hj⟩ (by simpa using hname)
    apply Fin.ext
    simpa using congrArg Fin.val this

/-- The positions form of a repeated name is the negation of `DistinctNames`. -/
theorem not_distinctNames_iff {R : Type} (cs : List (Command R)) :
    ¬ DistinctNames cs ↔ ∃ i j : Fin cs.length, i ≠ j ∧ (cs.get i).Name = (cs.get j).Name := by
  unfold DistinctNames
  push_neg
  rfl

section ValidateClaims

variable {DO DR PR R : Type}

/-- With the flag unset, the duplicate scan of `Validate` finds nothing exactly when the names
are distinct. -/
theorem scanCommands_nil_eq_none_iff (cs : List (Command R)) :
    scanCommands [] cs = none ↔ DistinctNames cs := by
  rw [scanCommands_eq_none_iff, distinctNames_iff_nodup]
  simp

/-- The three outcomes of `Validate` on a profile whose flag is false, in the order of its
checks. -/
theorem Validate_unvalidated (env : Collaborators DO DR PR R) (dp : DeviceProfile DO DR PR R)
    (hflag : dp.isValidated = false) :
    (dp.Id = "" ∧ dp.Name = "" → Validate env dp = (false, some errBlankIdentity)) ∧
    ((dp.Id ≠ "" ∨ dp.Name ≠ "") → ¬ DistinctNames dp.CoreCommands.elems →
      Validate env dp = (false, some errDuplicateNames)) ∧
    ((dp.Id ≠ "" ∨ dp.Name ≠ "") → DistinctNames dp.CoreCommands.elems →
      Validate env dp = (match env.validate dp with
        | some err => (false, some err)
        | none => (true, none))) := by
  refine ⟨?_, ?_, ?_⟩
  · rintro ⟨hid, hname⟩
    simp [Validate, hflag, hid, hname, errBlankIdentity]
  · intro hid hnd
    have hcond : (dp.Id == "" && dp.Name == "") = false := by
      rcases hid with h | h <;> simp [h]
    rw [← scanCommands_nil_eq_none_iff] at hnd
    cases hs : scanCommands [] dp.CoreCommands.elems with
    | none => exact absurd hs hnd
    | some err =>
      have herr := scanCommands_some _ _ _ hs
      simp [Validate, hflag, hcond, hs, herr]
  · intro hid hd
    have hcond : (dp.Id == "" && dp.Name == "") = false := by
      rcases hid with h | h <;> simp [h]
    have hs := (scanCommands_nil_eq_none_iff _).2 hd
    simp [Validate, hflag, hcond, hs]

/-- C1: for a profile whose cached validation flag is false, `Validate` returns `(true, nil)`
exactly when id or name is non-empty, no two core commands share a name, and the external
validator accepts the profile; in every other case it returns `false` with a non-nil error. -/
theorem validate_unvalidated_contract (env : Collaborators DO DR PR R)
    (dp : DeviceProfile DO DR PR R) (hflag : dp.isValidated = false) :
    (Validate env dp = (true, none) ↔
      ((dp.Id ≠ "" ∨ dp.Name ≠ "") ∧ DistinctNames dp.CoreCommands.elems ∧
        env.validate dp = none)) ∧
    (¬ ((dp.Id ≠ "" ∨ dp.Name ≠ "") ∧ DistinctNames dp.CoreCommands.elems ∧
        env.validate dp = none) → ∃ err, Validate env dp = (false, some err)) := by
  have hscan := scanCommands_nil_eq_none_iff dp.CoreCommands.elems
  unfold Validate
  by_cases hblank : dp.Id = "" ∧ dp.Name = ""
  · simp [hflag, hblank.1, hblank.2]
  · have hid : dp.Id ≠ "" ∨ dp.Name ≠ "" := by
      by_contra hc
      push_neg at hc
      exact hblank hc
    have hcond : (dp.Id == "" && dp.Name == "") = false := by
      rcases hid with h | h <;> simp [h]
    simp only [hflag, hcond, Bool.not_false, if_true, Bool.false_eq_true, if_false]
    cases hs : scanCommands [] dp.CoreCommands.elems with
    | some err =>
      have hnd : ¬ DistinctNames dp.CoreCommands.elems := by
        rw [← hscan, hs]
        simp
      simp [hnd]
    | none =>
      have hd : DistinctNames dp.CoreCommands.elems := hscan.1 hs
      cases hv : env.validate dp with
      | some err => simp [hid, hd]
      | none => simp [hid, hd]

/-- Witness of C1 on a directly constructed profile. -/
theorem validate_unvalidated_contract_witness :
    fullProfile.isValidated = false ∧
    ((Validate sampleEnv fullProfile = (true, none) ↔
      ((fullProfile.Id ≠ "" ∨ fullProfile.Name ≠ "") ∧
        DistinctNames fullProfile.CoreCommands.elems ∧ sampleEnv.validate fullProfile = none)) ∧
    (¬ ((fullProfile.Id ≠ "" ∨ fullProfile.Name ≠ "") ∧
        DistinctNames fullProfile.CoreCommands.elems ∧ sampleEnv.validate fullProfile = none) →
      ∃ err, Validate sampleEnv fullProfile = (false, some err))) :=
  ⟨rfl, validate_unvalidated_contract sampleEnv fullProfile rfl⟩

/-- C5 as stated fails: a profile whose id and name are both blank and whose flag is set (here
the destination of two successive decodes) passes `Validate`. -/
theorem blank_identity_passes_when_flag_set :
    decodedTwiceBlank.Id = "" ∧ decodedTwiceBlank.Name = "" ∧
    Validate sampleEnv decodedTwiceBlank = (true, none) ∧
    Validate sampleEnv decodedTwiceBlank ≠ (false, some errBlankIdentity) := by
  decide

/-- C5, amended: every profile whose flag is false and whose id and name are both empty fails
`Validate` with `false` and the blank-identity error, whatever its other fields and whatever the
external validator says. -/
theorem validate_blank_identity (env : Collaborators DO DR PR R)
    (dp : DeviceProfile DO DR PR R) (hflag : dp.isValidated = false) (hid : dp.Id = "")
    (hname : dp.Name = "") : Validate env dp = (false, some errBlankIdentity) := by
  simp [Validate, hflag, hid, hname, errBlankIdentity]

/-- Witness of the amended C5 on the zero value. -/
theorem validate_blank_identity_witness :
    Validate sampleEnv zeroProfile = (false, some errBlankIdentity) :=
  validate_blank_identity sampleEnv zeroProfile rfl rfl rfl

/-- C6 as stated fails: with id and name both blank, a repeated command name is not reported;
the blank-identity error is returned instead. -/
theorem duplicate_names_hidden_by_blank_identity :
    blankDuplicateProfile.isValidated = false ∧
    blankDuplicateProfile.CoreCommands = Slice.mk [cmd "A", cmd "A"] ∧
    Validate sampleEnv blankDuplicateProfile = (false, some errBlankIdentity) ∧
    Validate sampleEnv blankDuplicateProfile ≠ (false, some errDuplicateNames) := by
  decide

/-- C6, amended: every profile whose flag is false and whose core commands hold the same name at
two positions fails `Validate`: with the duplicate-name error when id or name is non-empty, with
the blank-identity error when both are empty. -/
theorem validate_duplicate_names (env : Collaborators DO DR PR R)
    (dp : DeviceProfile DO DR PR R) (hflag : dp.isValidated = false)
    (hdup : ∃ i j : Fin dp.CoreCommands.elems.length, i ≠ j ∧
      (dp.CoreCommands.elems.get i).Name = (dp.CoreCommands.elems.get j).Name) :
    ((dp.Id ≠ "" ∨ dp.Name ≠ "") → Validate env dp = (false, some errDuplicateNames)) ∧
    ((dp.Id = "" ∧ dp.Name = "") → Validate env dp = (false, some errBlankIdentity)) := by
  constructor
  · intro hid
    have hcond : (dp.Id == "" && dp.Name == "") = false := by
      rcases hid with h | h <;> simp [h]
    have hnd : ¬ DistinctNames dp.CoreCommands.elems := (not_distinctNames_iff _).2 hdup
    rw [← scanCommands_nil_eq_none_iff] at hnd
    cases hs : scanCommands [] dp.CoreCommands.elems with
    | none => exact absurd hs hnd
    | some err =>
      have herr := scanCommands_some _ _ _ hs
      simp [Validate, hflag, hcond, hs, herr]
  · rintro ⟨hid, hname⟩
    simp [Validate, hflag, hid, hname, errBlankIdentity]

/-- Witness of the amended C6: a named profile with the command name `A` at positions 0 and 1
fails with the duplicate-name error. -/
theorem validate_duplicate_names_witness :
    Validate sampleEnv namedDuplicateProfile = (false, some errDuplicateNames) :=
  (validate_duplicate_names sampleEnv namedDuplicateProfile rfl
    ⟨⟨0, by decide⟩, ⟨1, by decide⟩, by decide, by decide⟩).1 (Or.inr (by decide))

/-- C7: for every profile whose cached validation flag is true, `Validate` returns `(true, nil)`
whatever the other fields hold and whatever the external validator would say; in particular it
does so again after the core commands have been replaced by any sequence, one with a repeated
name included. -/
theorem validate_memoized (env : Collaborators DO DR PR R) (dp : DeviceProfile DO DR PR R)
    (cmds : Slice (Command R)) (hflag : dp.isValidated = true) :
    Validate env dp = (true, none) ∧
    Validate env { dp with CoreCommands := cmds } = (true, none) := by
  simp [Validate, hflag]

/-- Witness of C7: a decoded profile, then mutated to hold the command name `A` twice, under a
validator that rejects everything. -/
theorem validate_memoized_witness :
    decodedOnce.isValidated = true ∧
    Validate rejectingEnv decodedOnce = (true, none) ∧
    Validate rejectingEnv { decodedOnce with CoreCommands := Slice.mk [cmd "A", cmd "A"] } =
      (true, none) :=
  ⟨by decide, validate_memoized rejectingEnv decodedOnce (Slice.mk [cmd "A", cmd "A"])
    (by decide)⟩

end ValidateClaims

/-! ## Properties of `MarshalJSON` -/

section MarshalLemmas

variable {DO DR PR R : Type}

/-- A successful run over a list pairs every input with its output, in order. -/
theorem mapExcept_ok_iff {α β : Type} (f : α → Except Error β) (xs : List α) (ys : List β) :
    mapExcept f xs = Except.ok ys ↔ List.Forall₂ (fun x y => f x = Except.ok y) xs ys := by
  induction xs generalizing ys with
  | nil =>
    cases ys <;> simp [mapExcept]
  | cons x rest ih =>
    unfold mapExcept
    cases hx : f x with
    | error e =>
      simp only [reduceCtorEq, false_iff]
      intro h
      cases h with
      | cons h1 _ => rw [hx] at h1; cases h1
    | ok y =>
      cases hr : mapExcept f rest with
      | error e =>
        simp only [reduceCtorEq, false_iff]
        intro h
        cases h with
        | cons _ h2 =>
          rw [← ih, hr] at h2
          cases h2
      | ok zs =>
        constructor
        · intro h
          cases h
          exact List.Forall₂.cons hx ((ih zs).1 hr)
        · intro h
          cases h with
          | cons h1 h2 =>
            rw [hx] at h1
            cases h1
            rw [← ih, hr] at h2
            cases h2
            rfl

/-- A run over a list succeeds when the function succeeds on every element. -/
theorem mapExcept_total {α β : Type} (f : α → Except Error β) (xs : List α)
    (h : ∀ x ∈ xs, ∃ y, f x = Except.ok y) : ∃ ys, mapExcept f xs = Except.ok ys := by
  induction xs with
  | nil => exact ⟨[], rfl⟩
  | cons x rest ih =>
    obtain ⟨y, hy⟩ := h x (List.mem_cons_self _ _)
    obtain ⟨ys, hys⟩ := ih (fun z hz => h z (List.mem_cons_of_mem _ hz))
    exact ⟨y :: ys, by simp [mapExcept, hy, hys]⟩

/-- A promoted member never carries a key of the enclosing struct. -/
theorem mem_promote (outer : List String) (embedded : List (String × Json)) (k : String)
    (v : Json) (h : (k, v) ∈ promote outer embedded) : k ∉ outer := by
  unfold promote at h
  have := (List.mem_filter.1 h).2
  simpa using this

/-- The member of a pointer field under `omitempty`. -/
theorem mem_ptrOmitEmpty (key : String) (p : Option String) (k : String) (v : Json) :
    (k, v) ∈ ptrOmitEmpty key p ↔ k = key ∧ ∃ s, p = some s ∧ v = Json.str s := by
  cases p <;> simp [ptrOmitEmpty]

/-- The member of a slice field under `omitempty`. -/
theorem mem_sliceOmitEmpty {α : Type} (key : String) (enc : α → Except Error Json)
    (s : Slice α) (ms : List (String × Json)) (h : sliceOmitEmpty key enc s = Except.ok ms)
    (k : String) (v : Json) :
    (k, v) ∈ ms ↔ k = key ∧ 0 < s.len ∧
      ∃ items, List.Forall₂ (fun x y => enc x = Except.ok y) s.elems items ∧
        v = Json.arr items := by
  unfold sliceOmitEmpty at h
  by_cases hlen : s.len = 0
  · simp only [hlen, if_true] at h
    cases h
    simp [hlen]
  · simp only [hlen, if_false] at h
    cases hm : mapExcept enc s.elems with
    | error e => rw [hm] at h; cases h
    | ok items =>
      rw [hm] at h
      cases h
      have hf := (mapExcept_ok_iff enc s.elems items).1 hm
      simp only [List.mem_singleton, Prod.mk.injEq]
      constructor
      · rintro ⟨rfl, rfl⟩
        exact ⟨rfl, Nat.pos_of_ne_zero hlen, items, hf, rfl⟩
      · rintro ⟨rfl, _, items2, hf2, rfl⟩
        have := (mapExcept_ok_iff enc s.elems items2).2 hf2
        rw [hm] at this
        cases this
        exact ⟨rfl, rfl⟩

/-- A slice field under `omitempty` is encoded when its elements are. -/
theorem sliceOmitEmpty_total {α : Type} (key : String) (enc : α → Except Error Json)
    (s : Slice α) (h : ∀ x ∈ s.elems, ∃ y, enc x = Except.ok y) :
    ∃ ms, sliceOmitEmpty key enc s = Except.ok ms := by
  unfold sliceOmitEmpty
  by_cases hlen : s.len = 0
  · exact ⟨[], by simp [hlen]⟩
  · obtain ⟨ys, hys⟩ := mapExcept_total enc s.elems h
    exact ⟨[(key, Json.arr ys)], by simp [hlen, hys]⟩

/-- The struct that `MarshalJSON` hands to `json.Marshal`, field by field. -/
theorem MarshalJSON_eq (env : Collaborators DO DR PR R) (dp : DeviceProfile DO DR PR R) :
    MarshalJSON env dp = marshalProfileTest env
      { DescribedObject := dp.DescribedObject
        Id := if dp.Id = "" then none else some dp.Id
        Name := if dp.Name = "" then none else some dp.Name
        Manufacturer := if dp.Manufacturer = "" then none else some dp.Manufacturer
        Model := if dp.Model = "" then none else some dp.Model
        Labels := dp.Labels
        DeviceResources := if 0 < dp.DeviceResources.len then dp.DeviceResources else Slice.nil
        DeviceCommands := if 0 < dp.DeviceCommands.len then dp.DeviceCommands else Slice.nil
        CoreCommands := if 0 < dp.CoreCommands.len then dp.CoreCommands else Slice.nil } := by
  unfold MarshalJSON
  by_cases h1 : dp.Id = "" <;> by_cases h2 : dp.Name = "" <;>
    by_cases h3 : dp.Manufacturer = "" <;> by_cases h4 : dp.Model = "" <;>
    by_cases h5 : 0 < dp.DeviceResources.len <;> by_cases h6 : 0 < dp.DeviceCommands.len <;>
    by_cases h7 : 0 < dp.CoreCommands.len <;>
    simp [h1, h2, h3, h4, h5, h6, h7]

end MarshalLemmas

section MarshalClaims

variable {DO DR PR R : Type}

/-- The object that `json.Marshal(test)` returns, by its parts. -/
theorem marshalProfileTest_ok (env : Collaborators DO DR PR R) (test : ProfileTest DO DR PR R)
    (j : Json) (h : marshalProfileTest env test = Except.ok j) :
    ∃ embedded labels resources commands core,
      sliceOmitEmpty "labels" (fun s => Except.ok (Json.str s)) test.Labels = Except.ok labels ∧
      sliceOmitEmpty "deviceResources" env.marshalDeviceResource test.DeviceResources =
        Except.ok resources ∧
      sliceOmitEmpty "deviceCommands" env.marshalProfileResource test.DeviceCommands =
        Except.ok commands ∧
      sliceOmitEmpty "coreCommands" env.marshalCommand test.CoreCommands = Except.ok core ∧
      j = Json.obj (promote profileKeys embedded ++ ptrOmitEmpty "id" test.Id ++
        ptrOmitEmpty "name" test.Name ++ ptrOmitEmpty "manufacturer" test.Manufacturer ++
        ptrOmitEmpty "model" test.Model ++ labels ++ resources ++ commands ++ core) := by
  unfold marshalProfileTest at h
  split at h
  · cases h
  · split at h
    · cases h
    · split at h
      · cases h
      · split at h
        · cases h
        · split at h
          · cases h
          · rename_i embedded _ _ labels hl _ resources hr _ commands hc _ core hk
            cases h
            exact ⟨embedded, labels, resources, commands, core, hl, hr, hc, hk, rfl⟩

/-- A list of strings is encoded as the list of its JSON strings. -/
theorem forall₂_str_iff (xs : List String) (items : List Json) :
    List.Forall₂ (fun x y => Json.str x = y) xs items ↔ items = xs.map Json.str := by
  induction xs generalizing items with
  | nil => cases items <;> simp
  | cons x rest ih =>
    cases items with
    | nil => simp
    | cons y ys =>
      rw [List.forall₂_cons, ih, List.map_cons, List.cons.injEq]
      constructor
      · rintro ⟨h1, h2⟩; exact ⟨h1.symm, h2⟩
      · rintro ⟨h1, h2⟩; exact ⟨h1.symm, h2⟩

/-- The elements of a slice that is kept only when it is not empty. -/
theorem elems_if_pos {α : Type} (s : Slice α) :
    (if 0 < s.len then s else Slice.nil).elems = s.elems := by
  by_cases h : 0 < s.len
  · simp [h]
  · have h0 : s.elems.length = 0 := by simpa [Slice.len] using h
    have : s.elems = [] := List.length_eq_zero.1 h0
    rw [if_neg h, this]
    rfl

/-- The length of a slice that is kept only when it is not empty. -/
theorem len_if_pos {α : Type} (s : Slice α) :
    (if 0 < s.len then s else Slice.nil).len = s.len := by
  show (if 0 < s.len then s else Slice.nil).elems.length = s.elems.length
  rw [elems_if_pos]

/-- C3: the object that `MarshalJSON` produces holds the key id, name, manufacturer or model
exactly when that string field is non-empty, and then with the value of the field; it holds the
key labels, deviceResources, deviceCommands or coreCommands exactly when that sequence has
positive length, and then with the array of its encoded elements in order; a profile with an
empty manufacturer yields no manufacturer member at all. `MarshalJSON` produces an object
whenever the encoders of the embedded and element types succeed. -/
theorem marshal_omits_empty (env : Collaborators DO DR PR R) (dp : DeviceProfile DO DR PR R) :
    (Encodable env dp → ∃ j, MarshalJSON env dp = Except.ok j) ∧
    ∀ j, MarshalJSON env dp = Except.ok j → ∃ ms, j = Json.obj ms ∧
      (∀ v, ("id", v) ∈ ms ↔ dp.Id ≠ "" ∧ v = Json.str dp.Id) ∧
      (∀ v, ("name", v) ∈ ms ↔ dp.Name ≠ "" ∧ v = Json.str dp.Name) ∧
      (∀ v, ("manufacturer", v) ∈ ms ↔ dp.Manufacturer ≠ "" ∧ v = Json.str dp.Manufacturer) ∧
      (∀ v, ("model", v) ∈ ms ↔ dp.Model ≠ "" ∧ v = Json.str dp.Model) ∧
      (∀ v, ("labels", v) ∈ ms ↔
        0 < dp.Labels.len ∧ v = Json.arr (dp.Labels.elems.map Json.str)) ∧
      (∀ v, ("deviceResources", v) ∈ ms ↔ 0 < dp.DeviceResources.len ∧
        ∃ items, List.Forall₂ (fun x y => env.marshalDeviceResource x = Except.ok y)
          dp.DeviceResources.elems items ∧ v = Json.arr items) ∧
      (∀ v, ("deviceCommands", v) ∈ ms ↔ 0 < dp.DeviceCommands.len ∧
        ∃ items, List.Forall₂ (fun x y => env.marshalProfileResource x = Except.ok y)
          dp.DeviceCommands.elems items ∧ v = Json.arr items) ∧
      (∀ v, ("coreCommands", v) ∈ ms ↔ 0 < dp.CoreCommands.len ∧
        ∃ items, List.Forall₂ (fun x y => env.marshalCommand x = Except.ok y)
          dp.CoreCommands.elems items ∧ v = Json.arr items) ∧
      (dp.Manufacturer = "" → ∀ v, ("manufacturer", v) ∉ ms) := by
  constructor
  · rintro ⟨⟨emb, hemb⟩, hr, hc, hk⟩
    rw [MarshalJSON_eq]
    unfold marshalProfileTest
    obtain ⟨l, hl⟩ := sliceOmitEmpty_total "labels" (fun s => Except.ok (Json.str s)) dp.Labels
      (fun x _ => ⟨_, rfl⟩)
    obtain ⟨r, hr⟩ := sliceOmitEmpty_total "deviceResources" env.marshalDeviceResource
      (if 0 < dp.DeviceResources.len then dp.DeviceResources else Slice.nil)
      (by rw [elems_if_pos]; exact hr)
    obtain ⟨c, hc⟩ := sliceOmitEmpty_total "deviceCommands" env.marshalProfileResource
      (if 0 < dp.DeviceCommands.len then dp.DeviceCommands else Slice.nil)
      (by rw [elems_if_pos]; exact hc)
    obtain ⟨k, hk⟩ := sliceOmitEmpty_total "coreCommands" env.marshalCommand
      (if 0 < dp.CoreCommands.len then dp.CoreCommands else Slice.nil)
      (by rw [elems_if_pos]; exact hk)
    simp only [hemb, hl, hr, hc, hk]
    exact ⟨_, rfl⟩
  · intro j h
    rw [MarshalJSON_eq] at h
    obtain ⟨emb, l, r, c, k, hl, hr, hc, hk, rfl⟩ := marshalProfileTest_ok env _ j h
    have ml := mem_sliceOmitEmpty _ _ _ _ hl
    have mr := mem_sliceOmitEmpty _ _ _ _ hr
    have mc := mem_sliceOmitEmpty _ _ _ _ hc
    have mk := mem_sliceOmitEmpty _ _ _ _ hk
    simp only [elems_if_pos, len_if_pos] at ml mr mc mk
    have hp : ∀ key v, key ∈ profileKeys → (key, v) ∉ promote profileKeys emb :=
      fun key v hkey hm => mem_promote _ _ _ _ hm hkey
    refine ⟨_, rfl, ?_, ?_, ?_, ?_, ?_, ?_, ?_, ?_, ?_⟩
    · intro v
      have hv := hp "id" v (by decide)
      by_cases hf : dp.Id = "" <;>
        simp [List.mem_append, mem_ptrOmitEmpty, ml, mr, mc, mk, hv, hf]
    · intro v
      have hv := hp "name" v (by decide)
      by_cases hf : dp.Name = "" <;>
        simp [List.mem_append, mem_ptrOmitEmpty, ml, mr, mc, mk, hv, hf]
    · intro v
      have hv := hp "manufacturer" v (by decide)
      by_cases hf : dp.Manufacturer = "" <;>
        simp [List.mem_append, mem_ptrOmitEmpty, ml, mr, mc, mk, hv, hf]
    · intro v
      have hv := hp "model" v (by decide)
      by_cases hf : dp.Model = "" <;>
        simp [List.mem_append, mem_ptrOmitEmpty, ml, mr, mc, mk, hv, hf]
    · intro v
      have hv := hp "labels" v (by decide)
      simp [List.mem_append, mem_ptrOmitEmpty, ml, mr, mc, mk, hv, forall₂_str_iff]
    · intro v
      have hv := hp "deviceResources" v (by decide)
      simp [List.mem_append, mem_ptrOmitEmpty, ml, mr, mc, mk, hv]
    · intro v
      have hv := hp "deviceCommands" v (by decide)
      simp [List.mem_append, mem_ptrOmitEmpty, ml, mr, mc, mk, hv]
    · intro v
      have hv := hp "coreCommands" v (by decide)
      simp [List.mem_append, mem_ptrOmitEmpty, ml, mr, mc, mk, hv]
    · intro hf v
      have hv := hp "manufacturer" v (by decide)
      simp [List.mem_append, mem_ptrOmitEmpty, ml, mr, mc, mk, hv, hf]

end MarshalClaims

/-- Witness of C3 on a profile without empty fields: an object is produced. -/
theorem marshal_omits_empty_witness :
    ∃ j, MarshalJSON sampleEnv fullProfile = Except.ok j :=
  (marshal_omits_empty sampleEnv fullProfile).1
    ⟨⟨_, rfl⟩, fun _ _ => ⟨_, rfl⟩, fun _ _ => ⟨_, rfl⟩, fun _ _ => ⟨_, rfl⟩⟩

/-! ## Properties of `DeviceReport.MarshalJSON` -/

section ReportClaims

variable {TS : Type}

/-- The member of a pointer field that is never left out. -/
theorem mem_ptrMember (key : String) (p : Option String) (k : String) (v : Json) :
    (k, v) ∈ ptrMember key p ↔ k = key ∧ v = (match p with
      | none => Json.null
      | some s => Json.str s) := by
  cases p <;> simp [ptrMember]

/-- The member of a string slice field that is never left out. -/
theorem mem_stringsMember (key : String) (s : Slice String) (k : String) (v : Json) :
    (k, v) ∈ stringsMember key s ↔ k = key ∧ v = (match s with
      | Slice.nil => Json.null
      | Slice.mk items => Json.arr (items.map Json.str)) := by
  cases s <;> simp [stringsMember]

/-- The struct that `DeviceReport.MarshalJSON` hands to `json.Marshal`, field by field. -/
theorem reportMarshalJSON_eq
    (marshalTimestamps : TS → Except Error (List (String × Json))) (dr : DeviceReport TS) :
    DeviceReport.MarshalJSON marshalTimestamps dr = marshalReportTest marshalTimestamps
      { Timestamps := dr.Timestamps
        Id := dr.Id
        Name := if dr.Name = "" then none else some dr.Name
        Device := if dr.Device = "" then none else some dr.Device
        Action := if dr.Action = "" then none else some dr.Action
        Expected := dr.Expected } := by
  unfold DeviceReport.MarshalJSON
  by_cases h1 : dr.Name = "" <;> by_cases h2 : dr.Device = "" <;> by_cases h3 : dr.Action = "" <;>
    simp [h1, h2, h3]

/-- C9: the object that `DeviceReport.MarshalJSON` produces always holds the keys id, name,
device, action and expected, each with one value only: id with the field as it is (the empty
string included); name, device and action with JSON null exactly when the field is the empty
string and with the string of the field otherwise; expected with the sequence as it is (the
array of its strings in order, the empty array for a zero-length sequence, null for the nil
slice), never left out. An object is produced whenever the embedded timestamps are encoded. -/
theorem report_marshal_members
    (marshalTimestamps : TS → Except Error (List (String × Json))) (dr : DeviceReport TS) :
    ((∃ ts, marshalTimestamps dr.Timestamps = Except.ok ts) →
      ∃ j, DeviceReport.MarshalJSON marshalTimestamps dr = Except.ok j) ∧
    ∀ j, DeviceReport.MarshalJSON marshalTimestamps dr = Except.ok j → ∃ ms, j = Json.obj ms ∧
      (∀ v, ("id", v) ∈ ms ↔ v = Json.str dr.Id) ∧
      (∀ v, ("name", v) ∈ ms ↔ v = if dr.Name = "" then Json.null else Json.str dr.Name) ∧
      (∀ v, ("device", v) ∈ ms ↔
        v = if dr.Device = "" then Json.null else Json.str dr.Device) ∧
      (∀ v, ("action", v) ∈ ms ↔
        v = if dr.Action = "" then Json.null else Json.str dr.Action) ∧
      (∀ v, ("expected", v) ∈ ms ↔ v = (match dr.Expected with
        | Slice.nil => Json.null
        | Slice.mk items => Json.arr (items.map Json.str))) := by
  constructor
  · rintro ⟨ts, hts⟩
    rw [reportMarshalJSON_eq]
    unfold marshalReportTest
    simp only [hts]
    exact ⟨_, rfl⟩
  · intro j h
    rw [reportMarshalJSON_eq] at h
    unfold marshalReportTest at h
    split at h
    · cases h
    · rename_i emb _
      cases h
      have hp : ∀ key v, key ∈ reportKeys → (key, v) ∉ promote reportKeys emb :=
        fun key v hkey hm => mem_promote _ _ _ _ hm hkey
      refine ⟨_, rfl, ?_, ?_, ?_, ?_, ?_⟩
      · intro v
        have hv := hp "id" v (by decide)
        simp [List.mem_append, mem_ptrMember, mem_stringsMember, hv]
      · intro v
        have hv := hp "name" v (by decide)
        by_cases hf : dr.Name = "" <;>
          simp [List.mem_append, mem_ptrMember, mem_stringsMember, hv, hf]
      · intro v
        have hv := hp "device" v (by decide)
        by_cases hf : dr.Device = "" <;>
          simp [List.mem_append, mem_ptrMember, mem_stringsMember, hv, hf]
      · intro v
        have hv := hp "action" v (by decide)
        by_cases hf : dr.Action = "" <;>
          simp [List.mem_append, mem_ptrMember, mem_stringsMember, hv, hf]
      · intro v
        have hv := hp "expected" v (by decide)
        simp [List.mem_append, mem_ptrMember, mem_stringsMember, hv]

/-- Witness of C9 on the zero value of the report type: an object is produced. -/
theorem report_marshal_members_witness :
    ∃ j, DeviceReport.MarshalJSON sampleMarshalTimestamps zeroReport = Except.ok j :=
  (report_marshal_members sampleMarshalTimestamps zeroReport).1 ⟨_, rfl⟩

end ReportClaims

/-! ## Properties of `UnmarshalJSON` -/

section UnmarshalLemmas

variable {DO DR PR R : Type}

/-- Decoding of one member does not consult the schema validator. -/
theorem decodeMember_validate (env : Collaborators DO DR PR R)
    (v : DeviceProfile DO DR PR R → Option Error) (a : Alias DO DR PR R) (key : String)
    (j : Json) : decodeMember { env with validate := v } a key j = decodeMember env a key j := by
  rfl

/-- Decoding of the members does not consult the schema validator. -/
theorem decodeMembers_validate (env : Collaborators DO DR PR R)
    (v : DeviceProfile DO DR PR R → Option Error) (a : Alias DO DR PR R)
    (ms : List (String × Json)) :
    decodeMembers { env with validate := v } a ms = decodeMembers env a ms := by
  induction ms generalizing a with
  | nil => rfl
  | cons m rest ih =>
    unfold decodeMembers
    rw [decodeMember_validate]
    cases decodeMember env a m.1 m.2 with
    | error e => rfl
    | ok a1 => exact ih a1

/-- The structural decoding does not consult the schema validator. -/
theorem jsonUnmarshalAlias_validate (env : Collaborators DO DR PR R)
    (v : DeviceProfile DO DR PR R → Option Error) (data : Data) :
    jsonUnmarshalAlias { env with validate := v } (Alias.zero { env with validate := v }) data =
      jsonUnmarshalAlias env (Alias.zero env) data := by
  have hz : Alias.zero { env with validate := v } = Alias.zero env := rfl
  rw [hz]
  cases data with
  | malformed msg => rfl
  | wellFormed j =>
    cases j with
    | obj ms => exact decodeMembers_validate env v _ ms
    | _ => rfl

end UnmarshalLemmas

section UnmarshalClaims

variable {DO DR PR R : Type}

/-- C10: when the structural decoding `json.Unmarshal(data, &a)` fails, `UnmarshalJSON` returns
exactly that error and leaves every field of the destination, the validation flag included, as
it was; the outcome is the same whatever the validator of `Validate` would answer. Malformed
input gives the syntax error, and the input `{"coreCommands":"not-an-array"}` gives a type
error, which is not a contract-invalid error. -/
theorem unmarshal_structural_error (env : Collaborators DO DR PR R)
    (dp : DeviceProfile DO DR PR R) :
    (∀ data err, jsonUnmarshalAlias env (Alias.zero env) data = Except.error err →
      ∀ v, UnmarshalJSON { env with validate := v } dp data = (dp, some err)) ∧
    (∀ msg, UnmarshalJSON env dp (Data.malformed msg) = (dp, some (Error.SyntaxError msg))) ∧
    UnmarshalJSON env dp dataNotAnArray =
      (dp, some (Error.UnmarshalTypeError "string" "coreCommands")) ∧
    (∀ msg, Error.UnmarshalTypeError "string" "coreCommands" ≠ NewErrContractInvalid msg) := by
  refine ⟨?_, ?_, ?_, ?_⟩
  · intro data err h v
    unfold UnmarshalJSON
    rw [jsonUnmarshalAlias_validate, h]
  · intro msg
    rfl
  · rfl
  · intro msg h
    cases h

/-- Witness of C10: the input `{"coreCommands":"not-an-array"}` decoded into a validated
destination, under a validator that rejects everything. -/
theorem unmarshal_structural_error_witness :
    UnmarshalJSON rejectingEnv decodedOnce dataNotAnArray =
      (decodedOnce, some (Error.UnmarshalTypeError "string" "coreCommands")) :=
  (unmarshal_structural_error sampleEnv decodedOnce).1 dataNotAnArray _ rfl _

end UnmarshalClaims

section DecodeLemmas

variable {DO DR PR R : Type}

/-- A key selects a field when both fold to the same name. -/
theorem matchesField_iff (key field : String) :
    matchesField key field = true ↔ foldName key = foldName field := by
  simp [matchesField]

/-- The folded name of the field `id`. -/
theorem foldName_id : foldName "id" = [73, 68] := by decide
/-- The folded name of the field `name`. -/
theorem foldName_name : foldName "name" = [78, 65, 77, 69] := by decide
/-- The folded name of the field `manufacturer`. -/
theorem foldName_manufacturer :
    foldName "manufacturer" = [77, 65, 78, 85, 70, 65, 67, 84, 85, 82, 69, 82] := by decide
/-- The folded name of the field `model`. -/
theorem foldName_model : foldName "model" = [77, 79, 68, 69, 76] := by decide
/-- The folded name of the field `labels`. -/
theorem foldName_labels : foldName "labels" = [76, 65, 66, 69, 76, 83] := by decide
/-- The folded name of the field `deviceResources`. -/
theorem foldName_deviceResources :
    foldName "deviceResources" =
      [68, 69, 86, 73, 67, 69, 82, 69, 83, 79, 85, 82, 67, 69, 83] := by decide
/-- The folded name of the field `deviceCommands`. -/
theorem foldName_deviceCommands :
    foldName "deviceCommands" = [68, 69, 86, 73, 67, 69, 67, 79, 77, 77, 65, 78, 68, 83] := by
  decide
/-- The folded name of the field `coreCommands`. -/
theorem foldName_coreCommands :
    foldName "coreCommands" = [67, 79, 82, 69, 67, 79, 77, 77, 65, 78, 68, 83] := by decide

/-- What a successful decoding into a pointer field stores. -/
theorem decodeStringPtr_ok (field : String) (v : Json) (p : Option String)
    (h : decodeStringPtr field v = Except.ok p) :
    (v = Json.null ∧ p = none) ∨ ∃ s, v = Json.str s ∧ p = some s := by
  cases v <;> simp [decodeStringPtr] at h
  · exact Or.inl ⟨rfl, h.symm⟩
  · exact Or.inr ⟨_, rfl, h.symm⟩

/-- The pointer fields after the decoding of one member: a member whose key selects the field is
null or a string and sets the pointer, any other member leaves the pointer as it is. -/
theorem decodeMember_ptrs (env : Collaborators DO DR PR R) (a a1 : Alias DO DR PR R)
    (key : String) (v : Json) (h : decodeMember env a key v = Except.ok a1) :
    (if matchesField key "id" then
        (v = Json.null ∧ a1.Id = none) ∨ ∃ s, v = Json.str s ∧ a1.Id = some s
      else a1.Id = a.Id) ∧
    (if matchesField key "name" then
        (v = Json.null ∧ a1.Name = none) ∨ ∃ s, v = Json.str s ∧ a1.Name = some s
      else a1.Name = a.Name) ∧
    (if matchesField key "manufacturer" then
        (v = Json.null ∧ a1.Manufacturer = none) ∨
          ∃ s, v = Json.str s ∧ a1.Manufacturer = some s
      else a1.Manufacturer = a.Manufacturer) ∧
    (if matchesField key "model" then
        (v = Json.null ∧ a1.Model = none) ∨ ∃ s, v = Json.str s ∧ a1.Model = some s
      else a1.Model = a.Model) := by
  unfold decodeMember at h
  split_ifs at h with h1 h2 h3 h4 h5 h6 h7 h8
  all_goals
    split at h
    · cases h
    · rename_i p hp
      cases h
      first
        | have hp2 := decodeStringPtr_ok _ _ _ hp
        | skip
      simp only [matchesField_iff] at *
      simp_all [foldName_id, foldName_name, foldName_manufacturer, foldName_model, foldName_labels,
        foldName_deviceResources, foldName_deviceCommands, foldName_coreCommands]

/-- The pointer fields after the decoding of all members: the last member whose key selects the
field decides, and without such a member the pointer stays as it is. -/
theorem decodeMembers_ptrs (env : Collaborators DO DR PR R) (ms : List (String × Json))
    (a a1 : Alias DO DR PR R) (h : decodeMembers env a ms = Except.ok a1) :
    (match memberFor "id" ms with
      | none => a1.Id = a.Id
      | some v => (v = Json.null ∧ a1.Id = none) ∨ ∃ s, v = Json.str s ∧ a1.Id = some s) ∧
    (match memberFor "name" ms with
      | none => a1.Name = a.Name
      | some v => (v = Json.null ∧ a1.Name = none) ∨ ∃ s, v = Json.str s ∧ a1.Name = some s) ∧
    (match memberFor "manufacturer" ms with
      | none => a1.Manufacturer = a.Manufacturer
      | some v => (v = Json.null ∧ a1.Manufacturer = none) ∨
          ∃ s, v = Json.str s ∧ a1.Manufacturer = some s) ∧
    (match memberFor "model" ms with
      | none => a1.Model = a.Model
      | some v => (v = Json.null ∧ a1.Model = none) ∨
          ∃ s, v = Json.str s ∧ a1.Model = some s) := by
  induction ms generalizing a with
  | nil =>
    unfold decodeMembers at h
    cases h
    simp [memberFor]
  | cons m rest ih =>
    unfold decodeMembers at h
    split at h
    · cases h
    · rename_i a2 h2
      have hm := decodeMember_ptrs env a a2 m.1 m.2 h2
      have hr := ih a2 h
      obtain ⟨m1, m2, m3, m4⟩ := hm
      obtain ⟨r1, r2, r3, r4⟩ := hr
      refine ⟨?_, ?_, ?_, ?_⟩
      · unfold memberFor
        cases hf : memberFor "id" rest with
        | some v => simpa [hf] using r1
        | none =>
          rw [hf] at r1
          by_cases hk : matchesField m.1 "id" = true
          · simp only [hk, if_true] at m1 ⊢
            simpa [r1] using m1
          · simp only [hk, if_false] at m1 ⊢
            simpa [r1] using m1
      · unfold memberFor
        cases hf : memberFor "name" rest with
        | some v => simpa [hf] using r2
        | none =>
          rw [hf] at r2
          by_cases hk : matchesField m.1 "name" = true
          · simp only [hk, if_true] at m2 ⊢
            simpa [r2] using m2
          · simp only [hk, if_false] at m2 ⊢
            simpa [r2] using m2
      · unfold memberFor
        cases hf : memberFor "manufacturer" rest with
        | some v => simpa [hf] using r3
        | none =>
          rw [hf] at r3
          by_cases hk : matchesField m.1 "manufacturer" = true
          · simp only [hk, if_true] at m3 ⊢
            simpa [r3] using m3
          · simp only [hk, if_false] at m3 ⊢
            simpa [r3] using m3
      · unfold memberFor
        cases hf : memberFor "model" rest with
        | some v => simpa [hf] using r4
        | none =>
          rw [hf] at r4
          by_cases hk : matchesField m.1 "model" = true
          · simp only [hk, if_true] at m4 ⊢
            simpa [r4] using m4
          · simp only [hk, if_false] at m4 ⊢
            simpa [r4] using m4

end DecodeLemmas
section StringFieldClaims

variable {DO DR PR R : Type}

/-- The string fields of the populated destination. -/
theorem populate_strings (dp : DeviceProfile DO DR PR R) (a : Alias DO DR PR R) :
    (populate dp a).Id = (match a.Id with
      | some s => s
      | none => dp.Id) ∧
    (populate dp a).Name = (match a.Name with
      | some s => s
      | none => dp.Name) ∧
    (populate dp a).Manufacturer = (match a.Manufacturer with
      | some s => s
      | none => dp.Manufacturer) ∧
    (populate dp a).Model = (match a.Model with
      | some s => s
      | none => dp.Model) := by
  unfold populate
  cases a.Id <;> cases a.Name <;> cases a.Manufacturer <;> cases a.Model <;> simp

/-- The destination and the error of `UnmarshalJSON` after a successful structural decoding. -/
theorem UnmarshalJSON_ok (env : Collaborators DO DR PR R) (dp : DeviceProfile DO DR PR R)
    (data : Data) (a : Alias DO DR PR R)
    (h : jsonUnmarshalAlias env (Alias.zero env) data = Except.ok a) :
    UnmarshalJSON env dp data =
      ({ populate dp a with isValidated := (Validate env (populate dp a)).1 },
        (Validate env (populate dp a)).2) := by
  unfold UnmarshalJSON
  rw [h]

/-- The pointer fields of the decoded `Alias`, by the value that the input carries for each. -/
theorem jsonUnmarshalAlias_ptrs (env : Collaborators DO DR PR R) (data : Data)
    (a : Alias DO DR PR R) (h : jsonUnmarshalAlias env (Alias.zero env) data = Except.ok a) :
    (match Data.memberFor "id" data with
      | none => a.Id = none
      | some v => (v = Json.null ∧ a.Id = none) ∨ ∃ s, v = Json.str s ∧ a.Id = some s) ∧
    (match Data.memberFor "name" data with
      | none => a.Name = none
      | some v => (v = Json.null ∧ a.Name = none) ∨ ∃ s, v = Json.str s ∧ a.Name = some s) ∧
    (match Data.memberFor "manufacturer" data with
      | none => a.Manufacturer = none
      | some v => (v = Json.null ∧ a.Manufacturer = none) ∨
          ∃ s, v = Json.str s ∧ a.Manufacturer = some s) ∧
    (match Data.memberFor "model" data with
      | none => a.Model = none
      | some v => (v = Json.null ∧ a.Model = none) ∨
          ∃ s, v = Json.str s ∧ a.Model = some s) := by
  cases data with
  | malformed msg => cases h
  | wellFormed j =>
    cases j with
    | obj ms => exact decodeMembers_ptrs env ms (Alias.zero env) a h
    | null =>
      cases h
      simp [Data.memberFor, Alias.zero]
    | _ => cases h

/-- C8 as stated fails: decoding `{"name":"n","model":null}` into a destination that holds a
manufacturer and a model succeeds and leaves both as they were, not empty. -/
theorem absent_key_keeps_destination_field :
    (UnmarshalJSON sampleEnv acmeProfile dataNamedNullModel).2 = none ∧
    (UnmarshalJSON sampleEnv acmeProfile dataNamedNullModel).1.Manufacturer = "acme" ∧
    (UnmarshalJSON sampleEnv acmeProfile dataNamedNullModel).1.Manufacturer ≠ "" ∧
    (UnmarshalJSON sampleEnv acmeProfile dataNamedNullModel).1.Model = "t-1000" ∧
    (UnmarshalJSON sampleEnv acmeProfile dataNamedNullModel).1.Model ≠ "" := by
  decide

/-- C8, amended: after a structurally valid input, each of the fields id, name, manufacturer
and model of the destination equals the string that the input carries under that key, and keeps
the value it had before the call when the key is absent or carries JSON null (so it is the empty
string when the destination held the empty string there); a null under one of these keys is
never a structural error. -/
theorem unmarshal_string_fields (env : Collaborators DO DR PR R)
    (dp : DeviceProfile DO DR PR R) (data : Data) (a : Alias DO DR PR R)
    (hdec : jsonUnmarshalAlias env (Alias.zero env) data = Except.ok a) :
    ((∀ s, Data.memberFor "id" data = some (Json.str s) →
        (UnmarshalJSON env dp data).1.Id = s) ∧
      (Data.memberFor "id" data = none ∨ Data.memberFor "id" data = some Json.null →
        (UnmarshalJSON env dp data).1.Id = dp.Id)) ∧
    ((∀ s, Data.memberFor "name" data = some (Json.str s) →
        (UnmarshalJSON env dp data).1.Name = s) ∧
      (Data.memberFor "name" data = none ∨ Data.memberFor "name" data = some Json.null →
        (UnmarshalJSON env dp data).1.Name = dp.Name)) ∧
    ((∀ s, Data.memberFor "manufacturer" data = some (Json.str s) →
        (UnmarshalJSON env dp data).1.Manufacturer = s) ∧
      (Data.memberFor "manufacturer" data = none ∨
          Data.memberFor "manufacturer" data = some Json.null →
        (UnmarshalJSON env dp data).1.Manufacturer = dp.Manufacturer)) ∧
    ((∀ s, Data.memberFor "model" data = some (Json.str s) →
        (UnmarshalJSON env dp data).1.Model = s) ∧
      (Data.memberFor "model" data = none ∨ Data.memberFor "model" data = some Json.null →
        (UnmarshalJSON env dp data).1.Model = dp.Model)) ∧
    (∀ (b : Alias DO DR PR R) (key : String),
      matchesField key "id" = true ∨ matchesField key "name" = true ∨
        matchesField key "manufacturer" = true ∨ matchesField key "model" = true →
      ∃ b1, decodeMember env b key Json.null = Except.ok b1) := by
  rw [UnmarshalJSON_ok env dp data a hdec]
  obtain ⟨p1, p2, p3, p4⟩ := populate_strings dp a
  obtain ⟨q1, q2, q3, q4⟩ := jsonUnmarshalAlias_ptrs env data a hdec
  simp only [p1, p2, p3, p4]
  refine ⟨⟨?_, ?_⟩, ⟨?_, ?_⟩, ⟨?_, ?_⟩, ⟨?_, ?_⟩, ?_⟩
  · intro s hs
    simp_all
  · rintro (hs | hs) <;> simp_all
  · intro s hs
    simp_all
  · rintro (hs | hs) <;> simp_all
  · intro s hs
    simp_all
  · rintro (hs | hs) <;> simp_all
  · intro s hs
    simp_all
  · rintro (hs | hs) <;> simp_all
  · intro b key hk
    unfold decodeMember
    by_cases h1 : matchesField key "id" = true
    · exact ⟨{ b with Id := none }, by simp [h1, decodeStringPtr]⟩
    · by_cases h2 : matchesField key "name" = true
      · exact ⟨{ b with Name := none }, by simp [h1, h2, decodeStringPtr]⟩
      · by_cases h3 : matchesField key "manufacturer" = true
        · exact ⟨{ b with Manufacturer := none }, by simp [h1, h2, h3, decodeStringPtr]⟩
        · have h4 : matchesField key "model" = true := by tauto
          exact ⟨{ b with Model := none }, by simp [h1, h2, h3, h4, decodeStringPtr]⟩

/-- Witness of the amended C8: `{"name":"n","model":null}` decoded into a destination that
holds a manufacturer and a model. -/
theorem unmarshal_string_fields_witness :
    (UnmarshalJSON sampleEnv acmeProfile dataNamedNullModel).1.Name = "n" ∧
    (UnmarshalJSON sampleEnv acmeProfile dataNamedNullModel).1.Manufacturer =
      acmeProfile.Manufacturer ∧
    (UnmarshalJSON sampleEnv acmeProfile dataNamedNullModel).1.Model = acmeProfile.Model :=
  ⟨(unmarshal_string_fields sampleEnv acmeProfile dataNamedNullModel _ rfl).2.1.1 "n" rfl,
    (unmarshal_string_fields sampleEnv acmeProfile dataNamedNullModel _ rfl).2.2.1.2
      (Or.inl rfl),
    (unmarshal_string_fields sampleEnv acmeProfile dataNamedNullModel _ rfl).2.2.2.1.2
      (Or.inr rfl)⟩

end StringFieldClaims

section DecodeValidationClaims

variable {DO DR PR R : Type}

/-- The assignments of `UnmarshalJSON` leave the validation flag of the destination alone. -/
theorem populate_isValidated (dp : DeviceProfile DO DR PR R) (a : Alias DO DR PR R) :
    (populate dp a).isValidated = dp.isValidated := by
  unfold populate
  cases a.Id <;> cases a.Name <;> cases a.Manufacturer <;> cases a.Model <;> rfl

/-- C2 as stated fails: decoding `{"coreCommands":[{"name":"A"},{"name":"A"}]}` into a
destination that was successfully decoded before returns no error, although the populated
profile holds the command name `A` twice. -/
theorem decode_into_validated_accepts_duplicates :
    decodedOnce = (UnmarshalJSON sampleEnv zeroProfile dataNamed).1 ∧
    (UnmarshalJSON sampleEnv zeroProfile dataNamed).2 = none ∧
    (UnmarshalJSON sampleEnv decodedOnce dataDuplicates).2 = none ∧
    (UnmarshalJSON sampleEnv decodedOnce dataDuplicates).1.CoreCommands =
      Slice.mk [cmd "A", cmd "A"] ∧
    ¬ DistinctNames (UnmarshalJSON sampleEnv decodedOnce dataDuplicates).1.CoreCommands.elems := by
  refine ⟨rfl, by decide, by decide, by decide, ?_⟩
  rw [not_distinctNames_iff]
  exact ⟨⟨0, by decide⟩, ⟨1, by decide⟩, by decide, by decide⟩

/-- C2, amended: for every destination whose validation flag is false before the call and every
structurally valid input, `UnmarshalJSON` fails with the validation error when the populated
profile has id and name both empty (blank-identity error) or holds the same command name at two
positions (duplicate-name error, when id or name is non-empty); so every profile that
`UnmarshalJSON` accepts into such a destination has a non-empty id or name and pairwise distinct
command names. -/
theorem unmarshal_rejects_invalid (env : Collaborators DO DR PR R)
    (dp : DeviceProfile DO DR PR R) (data : Data) (a : Alias DO DR PR R)
    (hflag : dp.isValidated = false)
    (hdec : jsonUnmarshalAlias env (Alias.zero env) data = Except.ok a) :
    ((UnmarshalJSON env dp data).1.Id = "" ∧ (UnmarshalJSON env dp data).1.Name = "" →
      (UnmarshalJSON env dp data).2 = some errBlankIdentity) ∧
    (((UnmarshalJSON env dp data).1.Id ≠ "" ∨ (UnmarshalJSON env dp data).1.Name ≠ "") →
      ¬ DistinctNames (UnmarshalJSON env dp data).1.CoreCommands.elems →
      (UnmarshalJSON env dp data).2 = some errDuplicateNames) ∧
    ((UnmarshalJSON env dp data).2 = none →
      ((UnmarshalJSON env dp data).1.Id ≠ "" ∨ (UnmarshalJSON env dp data).1.Name ≠ "") ∧
      DistinctNames (UnmarshalJSON env dp data).1.CoreCommands.elems) := by
  rw [UnmarshalJSON_ok env dp data a hdec]
  have hf : (populate dp a).isValidated = false := by rw [populate_isValidated, hflag]
  have hscan := scanCommands_nil_eq_none_iff (populate dp a).CoreCommands.elems
  show ((populate dp a).Id = "" ∧ (populate dp a).Name = "" →
      (Validate env (populate dp a)).2 = some errBlankIdentity) ∧
    (((populate dp a).Id ≠ "" ∨ (populate dp a).Name ≠ "") →
      ¬ DistinctNames (populate dp a).CoreCommands.elems →
      (Validate env (populate dp a)).2 = some errDuplicateNames) ∧
    ((Validate env (populate dp a)).2 = none →
      ((populate dp a).Id ≠ "" ∨ (populate dp a).Name ≠ "") ∧
      DistinctNames (populate dp a).CoreCommands.elems)
  generalize populate dp a = q at hf hscan
  unfold Validate
  by_cases hblank : q.Id = "" ∧ q.Name = ""
  · simp [hf, hblank.1, hblank.2, errBlankIdentity]
  · have hid : q.Id ≠ "" ∨ q.Name ≠ "" := by
      by_contra hc
      push_neg at hc
      exact hblank hc
    have hcond : (q.Id == "" && q.Name == "") = false := by
      rcases hid with h | h <;> simp [h]
    simp only [hf, hcond, Bool.not_false, if_true, Bool.false_eq_true, if_false]
    cases hs : scanCommands [] q.CoreCommands.elems with
    | some err =>
      have herr := scanCommands_some _ _ _ hs
      have hnd : ¬ DistinctNames q.CoreCommands.elems := by
        rw [← hscan, hs]
        simp
      simp [hnd, herr, hblank]
    | none =>
      have hd : DistinctNames q.CoreCommands.elems := hscan.1 hs
      cases hv : env.validate q with
      | some err => simp [hid, hd, hblank]
      | none => simp [hid, hd, hblank]

/-- Witness of the amended C2: a named input with the command name `A` twice, decoded into the
zero value, is rejected with the duplicate-name error. -/
theorem unmarshal_rejects_invalid_witness :
    (UnmarshalJSON sampleEnv zeroProfile dataNamedDuplicates).2 = some errDuplicateNames :=
  (unmarshal_rejects_invalid sampleEnv zeroProfile dataNamedDuplicates _ rfl rfl).2.1
    (Or.inr (by decide))
    ((not_distinctNames_iff _).2 ⟨⟨0, by decide⟩, ⟨1, by decide⟩, by decide, by decide⟩)

end DecodeValidationClaims

/-! ## Encoding followed by decoding -/

section RoundTripLemmas

variable {DO DR PR R : Type}

/-- A list whose elements all round-trip is encoded to items that decode to the list. -/
theorem mapExcept_round_trip {α : Type} (enc : α → Except Error Json)
    (dec : Json → Except Error α) (xs : List α)
    (h : ∀ x ∈ xs, ∃ j, enc x = Except.ok j ∧ dec j = Except.ok x) :
    ∃ items, mapExcept enc xs = Except.ok items ∧ mapExcept dec items = Except.ok xs := by
  induction xs with
  | nil => exact ⟨[], rfl, rfl⟩
  | cons x rest ih =>
    obtain ⟨j, hj1, hj2⟩ := h x (List.mem_cons_self _ _)
    obtain ⟨items, hi1, hi2⟩ := ih (fun z hz => h z (List.mem_cons_of_mem _ hz))
    exact ⟨j :: items, by simp [mapExcept, hj1, hi1], by simp [mapExcept, hj2, hi2]⟩

/-- Members whose keys are not keys of the enclosing struct are all promoted. -/
theorem promote_eq_self (embedded : List (String × Json))
    (h : ∀ m ∈ embedded, ∀ f ∈ profileKeys, matchesField m.1 f = false) :
    promote profileKeys embedded = embedded := by
  unfold promote
  rw [List.filter_eq_self]
  intro m hm
  have hnot : m.1 ∉ profileKeys := by
    intro hin
    have := h m hm m.1 hin
    simp [matchesField] at this
  simpa using hnot

/-- Decoding of a concatenation of members. -/
theorem decodeMembers_append (env : Collaborators DO DR PR R) (l1 l2 : List (String × Json))
    (a : Alias DO DR PR R) :
    decodeMembers env a (l1 ++ l2) =
      (match decodeMembers env a l1 with
        | Except.error err => Except.error err
        | Except.ok a1 => decodeMembers env a1 l2) := by
  induction l1 generalizing a with
  | nil => rfl
  | cons m rest ih =>
    simp only [List.cons_append, decodeMembers]
    cases decodeMember env a m.1 m.2 with
    | error e => rfl
    | ok a1 => exact ih a1

/-- Members that select none of the eight profile fields are decoded by the embedded struct. -/
theorem decodeMembers_embedded (env : Collaborators DO DR PR R)
    (embedded : List (String × Json))
    (h : ∀ m ∈ embedded, ∀ f ∈ profileKeys, matchesField m.1 f = false)
    (a : Alias DO DR PR R) (d : DO)
    (hd : decodeEmbedded env a.DescribedObject embedded = Except.ok d) :
    decodeMembers env a embedded = Except.ok { a with DescribedObject := d } := by
  induction embedded generalizing a with
  | nil =>
    simp only [decodeEmbedded] at hd
    cases hd
    rfl
  | cons m rest ih =>
    have hm := h m (List.mem_cons_self _ _)
    have h1 := hm "id" (by decide)
    have h2 := hm "name" (by decide)
    have h3 := hm "manufacturer" (by decide)
    have h4 := hm "model" (by decide)
    have h5 := hm "labels" (by decide)
    have h6 := hm "deviceResources" (by decide)
    have h7 := hm "deviceCommands" (by decide)
    have h8 := hm "coreCommands" (by decide)
    unfold decodeEmbedded at hd
    unfold decodeMembers decodeMember
    simp only [h1, h2, h3, h4, h5, h6, h7, h8, Bool.false_eq_true, if_false]
    cases hu : env.unmarshalDescribedObjectMember a.DescribedObject m.1 m.2 with
    | error e => rw [hu] at hd; cases hd
    | ok d1 =>
      rw [hu] at hd
      simp only
      exact ih (fun z hz => h z (List.mem_cons_of_mem _ hz)) _ hd

/-- A slice of positive length is not the nil slice. -/
theorem slice_of_pos_len {α : Type} (s : Slice α) (h : 0 < s.len) : s = Slice.mk s.elems := by
  cases s with
  | nil => simp [Slice.len, Slice.elems] at h
  | mk items => rfl

end RoundTripLemmas
section RoundTripClaims

variable {DO DR PR R : Type}

/-- Decoding of an array into a slice field whose backing array holds no element. -/
theorem decodeSlice_fresh {α : Type} (field : String) (into : α → Json → Except Error α)
    (fresh : Json → Except Error α) (items : List Json) :
    decodeSlice field into fresh [] (Json.arr items) =
      (match mapExcept fresh items with
        | Except.error err => Except.error err
        | Except.ok xs => Except.ok (Slice.mk xs, [])) := by
  cases items with
  | nil => rfl
  | cons item rest =>
    simp only [decodeSlice, decodeItems, List.drop_nil]

/-- Decoding of the eight members that `MarshalJSON` writes for a profile without empty
fields, into an `Alias` whose slices hold no element yet. -/
theorem decodeMembers_profile (env : Collaborators DO DR PR R) (a : Alias DO DR PR R)
    (i n m o : String) (ls : List String) (rs : List DR) (cs : List PR) (ks : List (Command R))
    (jr jc jk : List Json)
    (al : a.Labels.elems ++ a.spare.Labels = [])
    (ar : a.DeviceResources.elems ++ a.spare.DeviceResources = [])
    (ac : a.DeviceCommands.elems ++ a.spare.DeviceCommands = [])
    (ak : a.CoreCommands.elems ++ a.spare.CoreCommands = [])
    (hr : mapExcept env.unmarshalDeviceResource jr = Except.ok rs)
    (hc : mapExcept env.unmarshalProfileResource jc = Except.ok cs)
    (hk : mapExcept env.unmarshalCommand jk = Except.ok ks) :
    decodeMembers env a
      [("id", Json.str i), ("name", Json.str n), ("manufacturer", Json.str m),
        ("model", Json.str o), ("labels", Json.arr (ls.map Json.str)),
        ("deviceResources", Json.arr jr), ("deviceCommands", Json.arr jc),
        ("coreCommands", Json.arr jk)] =
      Except.ok
        { DescribedObject := a.DescribedObject, Id := some i, Name := some n,
          Manufacturer := some m, Model := some o, Labels := Slice.mk ls,
          DeviceResources := Slice.mk rs, DeviceCommands := Slice.mk cs,
          CoreCommands := Slice.mk ks } := by
  have hl : mapExcept (decodeString "labels") (ls.map Json.str) = Except.ok ls := by
    induction ls with
    | nil => rfl
    | cons x rest ih => simp [mapExcept, decodeString, ih]
  have e1 : matchesField "id" "id" = true := by decide
  have e2 : matchesField "name" "id" = false := by decide
  have e3 : matchesField "name" "name" = true := by decide
  have e4 : matchesField "manufacturer" "id" = false := by decide
  have e5 : matchesField "manufacturer" "name" = false := by decide
  have e6 : matchesField "manufacturer" "manufacturer" = true := by decide
  have e7 : matchesField "model" "id" = false := by decide
  have e8 : matchesField "model" "name" = false := by decide
  have e9 : matchesField "model" "manufacturer" = false := by decide
  have e10 : matchesField "model" "model" = true := by decide
  have f1 : matchesField "labels" "id" = false := by decide
  have f2 : matchesField "labels" "name" = false := by decide
  have f3 : matchesField "labels" "manufacturer" = false := by decide
  have f4 : matchesField "labels" "model" = false := by decide
  have f5 : matchesField "labels" "labels" = true := by decide
  have g1 : matchesField "deviceResources" "id" = false := by decide
  have g2 : matchesField "deviceResources" "name" = false := by decide
  have g3 : matchesField "deviceResources" "manufacturer" = false := by decide
  have g4 : matchesField "deviceResources" "model" = false := by decide
  have g5 : matchesField "deviceResources" "labels" = false := by decide
  have g6 : matchesField "deviceResources" "deviceResources" = true := by decide
  have k1 : matchesField "deviceCommands" "id" = false := by decide
  have k2 : matchesField "deviceCommands" "name" = false := by decide
  have k3 : matchesField "deviceCommands" "manufacturer" = false := by decide
  have k4 : matchesField "deviceCommands" "model" = false := by decide
  have k5 : matchesField "deviceCommands" "labels" = false := by decide
  have k6 : matchesField "deviceCommands" "deviceResources" = false := by decide
  have k7 : matchesField "deviceCommands" "deviceCommands" = true := by decide
  have c1 : matchesField "coreCommands" "id" = false := by decide
  have c2 : matchesField "coreCommands" "name" = false := by decide
  have c3 : matchesField "coreCommands" "manufacturer" = false := by decide
  have c4 : matchesField "coreCommands" "model" = false := by decide
  have c5 : matchesField "coreCommands" "labels" = false := by decide
  have c6 : matchesField "coreCommands" "deviceResources" = false := by decide
  have c7 : matchesField "coreCommands" "deviceCommands" = false := by decide
  have c8 : matchesField "coreCommands" "coreCommands" = true := by decide
  simp only [decodeMembers, decodeMember, decodeStringPtr, decodeSlice_fresh, e1, e2, e3, e4, e5,
    e6, e7, e8, e9, e10, f1, f2, f3, f4, f5, g1, g2, g3, g4, g5, g6, k1, k2, k3, k4, k5, k6, k7,
    c1, c2, c3, c4, c5, c6, c7, c8, al, ar, ac, ak, hl, hr, hc, hk, if_true, Bool.false_eq_true,
    if_false]

/-- The object that `MarshalJSON` writes for a profile without empty fields whose parts
round-trip, and the `Alias` that the structural decoding reads from it. -/
theorem marshal_then_decode (env : Collaborators DO DR PR R) (p : DeviceProfile DO DR PR R)
    (hid : p.Id ≠ "") (hname : p.Name ≠ "") (hman : p.Manufacturer ≠ "") (hmodel : p.Model ≠ "")
    (hl : 0 < p.Labels.len) (hr : 0 < p.DeviceResources.len) (hc : 0 < p.DeviceCommands.len)
    (hk : 0 < p.CoreCommands.len) (hcodec : CodecsRoundTrip env p) :
    ∃ j, MarshalJSON env p = Except.ok j ∧
      jsonUnmarshalAlias env (Alias.zero env) (Data.wellFormed j) = Except.ok
        { DescribedObject := p.DescribedObject, Id := some p.Id, Name := some p.Name,
          Manufacturer := some p.Manufacturer, Model := some p.Model, Labels := p.Labels,
          DeviceResources := p.DeviceResources, DeviceCommands := p.DeviceCommands,
          CoreCommands := p.CoreCommands } := by
  obtain ⟨⟨emb, hemb, hkeys, hdo⟩, cr, cc, ck⟩ := hcodec
  obtain ⟨jr, er, dr⟩ := mapExcept_round_trip _ _ _ cr
  obtain ⟨jc, ec, dc⟩ := mapExcept_round_trip _ _ _ cc
  obtain ⟨jk, ek, dk⟩ := mapExcept_round_trip _ _ _ ck
  obtain ⟨jl, el, -⟩ := mapExcept_round_trip (fun s => Except.ok (Json.str s))
    (decodeString "labels") p.Labels.elems (fun x _ => ⟨Json.str x, rfl, rfl⟩)
  have hjl : jl = p.Labels.elems.map Json.str :=
    (forall₂_str_iff _ _).1 (by simpa using (mapExcept_ok_iff _ _ _).1 el)
  subst hjl
  have nl : p.Labels.len ≠ 0 := Nat.pos_iff_ne_zero.1 hl
  have nr : p.DeviceResources.len ≠ 0 := Nat.pos_iff_ne_zero.1 hr
  have nc : p.DeviceCommands.len ≠ 0 := Nat.pos_iff_ne_zero.1 hc
  have nk : p.CoreCommands.len ≠ 0 := Nat.pos_iff_ne_zero.1 hk
  refine ⟨Json.obj (emb ++ [("id", Json.str p.Id), ("name", Json.str p.Name),
    ("manufacturer", Json.str p.Manufacturer), ("model", Json.str p.Model),
    ("labels", Json.arr (p.Labels.elems.map Json.str)), ("deviceResources", Json.arr jr),
    ("deviceCommands", Json.arr jc), ("coreCommands", Json.arr jk)]), ?_, ?_⟩
  · rw [MarshalJSON_eq]
    simp [marshalProfileTest, sliceOmitEmpty, ptrOmitEmpty, hemb, hid, hname, hman, hmodel, hl,
      hr, hc, hk, nl, nr, nc, nk, el, er, ec, ek, promote_eq_self emb hkeys]
  · show decodeMembers env (Alias.zero env) _ = _
    rw [decodeMembers_append,
      decodeMembers_embedded env emb hkeys (Alias.zero env) p.DescribedObject hdo]
    simp only
    rw [decodeMembers_profile env { Alias.zero env with DescribedObject := p.DescribedObject }
      p.Id p.Name p.Manufacturer p.Model p.Labels.elems p.DeviceResources.elems
      p.DeviceCommands.elems p.CoreCommands.elems jr jc jk rfl rfl rfl rfl dr dc dk]
    rw [← slice_of_pos_len _ hl, ← slice_of_pos_len _ hr, ← slice_of_pos_len _ hc,
      ← slice_of_pos_len _ hk]

/-- C4 as stated fails: a profile without an empty string field and without an empty sequence,
holding the command name `A` twice, is encoded, but decoding the result into the zero value
fails with the duplicate-name error. -/
theorem round_trip_rejects_duplicates :
    (roundTrip sampleEnv zeroProfile fullDuplicateProfile).map Prod.snd =
      some (some errDuplicateNames) := by
  decide

/-- C4, amended: for every profile without an empty string field and without an empty sequence
whose parts round-trip through the codecs of the collaborators, `MarshalJSON` succeeds, and
`UnmarshalJSON` of its result leaves any destination equal to the original in every field
except the validation flag; the flag and the error are the results of `Validate` on that value,
so for a destination whose flag is false the decoding returns no error exactly when the command
names are pairwise distinct and the external validator accepts. -/
theorem marshal_unmarshal_round_trip (env : Collaborators DO DR PR R)
    (p dest : DeviceProfile DO DR PR R)
    (hid : p.Id ≠ "") (hname : p.Name ≠ "") (hman : p.Manufacturer ≠ "") (hmodel : p.Model ≠ "")
    (hl : 0 < p.Labels.len) (hr : 0 < p.DeviceResources.len) (hc : 0 < p.DeviceCommands.len)
    (hk : 0 < p.CoreCommands.len) (hcodec : CodecsRoundTrip env p) :
    ∃ j, MarshalJSON env p = Except.ok j ∧
      (UnmarshalJSON env dest (Data.wellFormed j)).1 =
        { p with isValidated := (Validate env { p with isValidated := dest.isValidated }).1 } ∧
      (UnmarshalJSON env dest (Data.wellFormed j)).2 =
        (Validate env { p with isValidated := dest.isValidated }).2 ∧
      (dest.isValidated = false →
        ((UnmarshalJSON env dest (Data.wellFormed j)).2 = none ↔
          DistinctNames p.CoreCommands.elems ∧
            env.validate { p with isValidated := false } = none)) := by
  obtain ⟨j, hj, hdec⟩ := marshal_then_decode env p hid hname hman hmodel hl hr hc hk hcodec
  have hpop : populate dest
      { DescribedObject := p.DescribedObject, Id := some p.Id, Name := some p.Name,
        Manufacturer := some p.Manufacturer, Model := some p.Model, Labels := p.Labels,
        DeviceResources := p.DeviceResources, DeviceCommands := p.DeviceCommands,
        CoreCommands := p.CoreCommands } = { p with isValidated := dest.isValidated } := rfl
  refine ⟨j, hj, ?_, ?_, ?_⟩
  · rw [UnmarshalJSON_ok env dest _ _ hdec, hpop]
  · rw [UnmarshalJSON_ok env dest _ _ hdec, hpop]
  · intro hflag
    rw [UnmarshalJSON_ok env dest _ _ hdec, hpop, hflag]
    obtain ⟨-, h2, h3⟩ := Validate_unvalidated env { p with isValidated := false } rfl
    by_cases hd : DistinctNames p.CoreCommands.elems
    · rw [h3 (Or.inl hid) hd]
      cases env.validate { p with isValidated := false } <;> simp [hd]
    · rw [h2 (Or.inl hid) hd]
      simp [hd]

/-- Witness of the amended C4: the sample profile decoded into a destination that holds other
values. -/
theorem marshal_unmarshal_round_trip_witness :
    ∃ j, MarshalJSON sampleEnv fullProfile = Except.ok j ∧
      (UnmarshalJSON sampleEnv acmeProfile (Data.wellFormed j)).1 =
        { fullProfile with
          isValidated :=
            (Validate sampleEnv { fullProfile with isValidated := acmeProfile.isValidated }).1 } ∧
      (UnmarshalJSON sampleEnv acmeProfile (Data.wellFormed j)).2 =
        (Validate sampleEnv { fullProfile with isValidated := acmeProfile.isValidated }).2 ∧
      (acmeProfile.isValidated = false →
        ((UnmarshalJSON sampleEnv acmeProfile (Data.wellFormed j)).2 = none ↔
          DistinctNames fullProfile.CoreCommands.elems ∧
            sampleEnv.validate { fullProfile with isValidated := false } = none)) :=
  marshal_unmarshal_round_trip sampleEnv fullProfile acmeProfile (by decide) (by decide)
    (by decide) (by decide) (by decide) (by decide) (by decide) (by decide)
    ⟨⟨[("description", Json.str "thermostat")], rfl, by decide, rfl⟩,
      fun x _ => ⟨Json.str x, rfl, rfl⟩, fun x _ => ⟨Json.str x, rfl, rfl⟩,
      fun x _ => ⟨Json.obj [("name", Json.str x.Name)], rfl, rfl⟩⟩

end RoundTripClaims

/-! ## Stringification -/

section StringClaims

variable {DO DR PR R TS : Type}

/-- C11: `String` is a total function on profiles and on reports: when `MarshalJSON` succeeds it
returns the text of that encoding, and when `MarshalJSON` fails it returns the message text of
the error that `json.Marshal` reports (the marshaler error around the failure, which ends with
the message of the failure); one of the two is always the case. -/
theorem string_total (text : Json → String) (env : Collaborators DO DR PR R)
    (dp : DeviceProfile DO DR PR R)
    (marshalTimestamps : TS → Except Error (List (String × Json))) (dr : DeviceReport TS) :
    (∀ j, MarshalJSON env dp = Except.ok j → DeviceProfile.String text env dp = text j) ∧
    (∀ err, MarshalJSON env dp = Except.error err →
      DeviceProfile.String text env dp =
        "json: error calling MarshalJSON for type models.DeviceProfile: " ++ err.message) ∧
    ((∃ j, MarshalJSON env dp = Except.ok j) ∨ ∃ err, MarshalJSON env dp = Except.error err) ∧
    (∀ j, DeviceReport.MarshalJSON marshalTimestamps dr = Except.ok j →
      DeviceReport.String text marshalTimestamps dr = text j) ∧
    (∀ err, DeviceReport.MarshalJSON marshalTimestamps dr = Except.error err →
      DeviceReport.String text marshalTimestamps dr =
        "json: error calling MarshalJSON for type models.DeviceReport: " ++ err.message) ∧
    ((∃ j, DeviceReport.MarshalJSON marshalTimestamps dr = Except.ok j) ∨
      ∃ err, DeviceReport.MarshalJSON marshalTimestamps dr = Except.error err) := by
  refine ⟨?_, ?_, ?_, ?_, ?_, ?_⟩
  · intro j h
    simp [DeviceProfile.String, jsonMarshal, h]
  · intro err h
    simp [DeviceProfile.String, jsonMarshal, h, Error.message]
  · cases h : MarshalJSON env dp with
    | ok j => exact Or.inl ⟨j, rfl⟩
    | error err => exact Or.inr ⟨err, rfl⟩
  · intro j h
    simp [DeviceReport.String, jsonMarshal, h]
  · intro err h
    simp [DeviceReport.String, jsonMarshal, h, Error.message]
  · cases h : DeviceReport.MarshalJSON marshalTimestamps dr with
    | ok j => exact Or.inl ⟨j, rfl⟩
    | error err => exact Or.inr ⟨err, rfl⟩

/-- Witness of C11: the zero profile is spelled as the empty object, and a profile whose
described object cannot be encoded gives the message of the marshaler error. -/
theorem string_total_witness :
    DeviceProfile.String sampleText sampleEnv zeroProfile = "{}" ∧
    DeviceProfile.String sampleText failingEnv zeroProfile =
      "json: error calling MarshalJSON for type models.DeviceProfile: unsupported" :=
  ⟨(string_total sampleText sampleEnv zeroProfile sampleMarshalTimestamps zeroReport).1 _ rfl,
    (string_total sampleText failingEnv zeroProfile sampleMarshalTimestamps zeroReport).2.1
      (Error.Other "unsupported") rfl⟩

end StringClaims

/-! ## The validation flag -/

section FlagClaims

variable {DO DR PR R : Type}

/-- `MarshalJSON` does not read the validation flag. -/
theorem MarshalJSON_flag (env : Collaborators DO DR PR R) (dp : DeviceProfile DO DR PR R)
    (b : Bool) : MarshalJSON env { dp with isValidated := b } = MarshalJSON env dp := by
  rfl

/-- C12: two profiles that agree on every field except the validation flag have the same
`MarshalJSON` result, and every member of the object produced is the encoding of one of the
other fields: a member contributed by the embedded described object, or a member under one of
the eight keys of the serialized fields, none of which is a key for the flag. -/
theorem marshal_ignores_flag (env : Collaborators DO DR PR R)
    (dp1 dp2 : DeviceProfile DO DR PR R)
    (h0 : dp1.DescribedObject = dp2.DescribedObject) (h1 : dp1.Id = dp2.Id)
    (h2 : dp1.Name = dp2.Name) (h3 : dp1.Manufacturer = dp2.Manufacturer)
    (h4 : dp1.Model = dp2.Model) (h5 : dp1.Labels = dp2.Labels)
    (h6 : dp1.DeviceResources = dp2.DeviceResources)
    (h7 : dp1.DeviceCommands = dp2.DeviceCommands)
    (h8 : dp1.CoreCommands = dp2.CoreCommands) :
    MarshalJSON env dp1 = MarshalJSON env dp2 ∧
    (∀ j, MarshalJSON env dp1 = Except.ok j → ∃ embedded ms,
      env.marshalDescribedObject dp1.DescribedObject = Except.ok embedded ∧ j = Json.obj ms ∧
      ∀ k v, (k, v) ∈ ms → (k, v) ∈ embedded ∨ k ∈ profileKeys) ∧
    "isValidated" ∉ profileKeys := by
  refine ⟨?_, ?_, by decide⟩
  · have e : dp2 = { dp1 with isValidated := dp2.isValidated } := by
      cases dp1
      cases dp2
      simp_all
    rw [e]
    exact (MarshalJSON_flag env dp1 dp2.isValidated).symm
  · intro j h
    rw [MarshalJSON_eq] at h
    unfold marshalProfileTest at h
    cases hemb : env.marshalDescribedObject dp1.DescribedObject with
    | error e => simp [hemb] at h
    | ok emb =>
      simp only [hemb] at h
      split at h
      · cases h
      · split at h
        · cases h
        · split at h
          · cases h
          · split at h
            · cases h
            · rename_i l hl _ r hr _ c hc _ k hk
              cases h
              have ml := mem_sliceOmitEmpty _ _ _ _ hl
              have mr := mem_sliceOmitEmpty _ _ _ _ hr
              have mc := mem_sliceOmitEmpty _ _ _ _ hc
              have mk := mem_sliceOmitEmpty _ _ _ _ hk
              refine ⟨emb, _, rfl, rfl, ?_⟩
              intro key v hm
              simp only [List.mem_append, mem_ptrOmitEmpty, ml, mr, mc, mk] at hm
              rcases hm with (((((((hm | hm) | hm) | hm) | hm) | hm) | hm) | hm) | hm
              · left
                unfold promote at hm
                exact (List.mem_filter.1 hm).1
              all_goals
                right
                rw [hm.1]
                decide

/-- Witness of C12: the sample profile with the flag unset and set. -/
theorem marshal_ignores_flag_witness :
    MarshalJSON sampleEnv fullProfile =
      MarshalJSON sampleEnv { fullProfile with isValidated := true } :=
  (marshal_ignores_flag sampleEnv fullProfile { fullProfile with isValidated := true }
    rfl rfl rfl rfl rfl rfl rfl rfl rfl).1

end FlagClaims

section ValidateBehaviourClaims

variable {DO DR PR R : Type}

/-- `Validate` returns `true` without an error, or `false` with an error. -/
theorem Validate_shape (env : Collaborators DO DR PR R) (dp : DeviceProfile DO DR PR R) :
    Validate env dp = (true, none) ∨ ∃ err, Validate env dp = (false, some err) := by
  unfold Validate
  cases hf : dp.isValidated with
  | true => simp
  | false =>
    simp only [Bool.not_false, if_true]
    split
    · exact Or.inr ⟨_, rfl⟩
    · split
      · exact Or.inr ⟨_, rfl⟩
      · split
        · exact Or.inr ⟨_, rfl⟩
        · exact Or.inl rfl

/-- C13: for a profile whose flag is false and whose id or name is non-empty, `Validate` returns
the duplicate-name error whenever two distinct positions of the core commands, adjacent or not,
hold the same name; when there are no such positions the result is that of the external
validator alone, its error being returned unchanged; so, the external validator not producing
the duplicate-name error itself, the duplicate-name error is returned exactly when two such
positions exist. -/
theorem validate_duplicates_iff (env : Collaborators DO DR PR R)
    (dp : DeviceProfile DO DR PR R) (hflag : dp.isValidated = false)
    (hid : dp.Id ≠ "" ∨ dp.Name ≠ "") :
    ((∃ i j : Fin dp.CoreCommands.elems.length, i ≠ j ∧
        (dp.CoreCommands.elems.get i).Name = (dp.CoreCommands.elems.get j).Name) →
      Validate env dp = (false, some errDuplicateNames)) ∧
    ((¬ ∃ i j : Fin dp.CoreCommands.elems.length, i ≠ j ∧
        (dp.CoreCommands.elems.get i).Name = (dp.CoreCommands.elems.get j).Name) →
      Validate env dp = (match env.validate dp with
        | some err => (false, some err)
        | none => (true, none))) ∧
    (env.validate dp ≠ some errDuplicateNames →
      (Validate env dp = (false, some errDuplicateNames) ↔
        ∃ i j : Fin dp.CoreCommands.elems.length, i ≠ j ∧
          (dp.CoreCommands.elems.get i).Name = (dp.CoreCommands.elems.get j).Name)) := by
  obtain ⟨-, h2, h3⟩ := Validate_unvalidated env dp hflag
  have hdup := fun h => h2 hid ((not_distinctNames_iff _).2 h)
  have hnone : (¬ ∃ i j : Fin dp.CoreCommands.elems.length, i ≠ j ∧
        (dp.CoreCommands.elems.get i).Name = (dp.CoreCommands.elems.get j).Name) →
      Validate env dp = (match env.validate dp with
        | some err => (false, some err)
        | none => (true, none)) := by
    intro h
    rw [← not_distinctNames_iff, not_not] at h
    exact h3 hid h
  refine ⟨hdup, hnone, ?_⟩
  intro hv
  constructor
  · intro hres
    by_contra hno
    rw [hnone hno] at hres
    cases hval : env.validate dp with
    | none => simp [hval] at hres
    | some err =>
      simp only [hval, Prod.mk.injEq, true_and, Option.some.injEq] at hres
      exact hv (by rw [hval, hres])
  · exact hdup

/-- Witness of C13: the command name `A` at the positions 0 and 2 of a named profile. -/
theorem validate_duplicates_iff_witness :
    Validate sampleEnv { namedProfile with CoreCommands := apartDuplicates } =
      (false, some errDuplicateNames) :=
  (validate_duplicates_iff sampleEnv { namedProfile with CoreCommands := apartDuplicates } rfl
    (Or.inr (by decide))).1 ⟨⟨0, by decide⟩, ⟨2, by decide⟩, by decide, by decide⟩

/-- C15: after a structurally valid input, the validation flag of the destination is the boolean
that the call of `Validate` on the populated value returned, and the error of `UnmarshalJSON` is
the error of that call: the flag is true when `UnmarshalJSON` returns no error and false when
it returns an error. -/
theorem unmarshal_sets_flag (env : Collaborators DO DR PR R) (dp : DeviceProfile DO DR PR R)
    (data : Data) (a : Alias DO DR PR R)
    (hdec : jsonUnmarshalAlias env (Alias.zero env) data = Except.ok a) :
    (UnmarshalJSON env dp data).1.isValidated = (Validate env (populate dp a)).1 ∧
    (UnmarshalJSON env dp data).2 = (Validate env (populate dp a)).2 ∧
    ((UnmarshalJSON env dp data).2 = none → (UnmarshalJSON env dp data).1.isValidated = true) ∧
    (∀ err, (UnmarshalJSON env dp data).2 = some err →
      (UnmarshalJSON env dp data).1.isValidated = false) := by
  rw [UnmarshalJSON_ok env dp data a hdec]
  refine ⟨rfl, rfl, ?_, ?_⟩
  · intro h
    rcases Validate_shape env (populate dp a) with hv | ⟨err, hv⟩
    · simp [hv]
    · simp [hv] at h
  · intro err h
    rcases Validate_shape env (populate dp a) with hv | ⟨err2, hv⟩
    · simp [hv] at h
    · simp [hv]

/-- Witness of C15: a named input sets the flag of the zero value, a blank one does not. -/
theorem unmarshal_sets_flag_witness :
    (UnmarshalJSON sampleEnv zeroProfile dataNamed).1.isValidated = true ∧
    (UnmarshalJSON sampleEnv zeroProfile dataBlankName).1.isValidated = false :=
  ⟨(unmarshal_sets_flag sampleEnv zeroProfile dataNamed _ rfl).2.2.1 (by decide),
    (unmarshal_sets_flag sampleEnv zeroProfile dataBlankName _ rfl).2.2.2 errBlankIdentity
      (by decide)⟩

/-- C16: a call of `Validate` leaves the profile it is called on as it was, the validation flag
included: a profile whose flag is false still has it false after a call that returned
`(true, nil)`, a further call on it gives the same result as the checks give, and once its core
commands are replaced by a sequence with a repeated name, `Validate` reports the duplicate-name
error (and the blank-identity error once its id and name are emptied). Of the four methods only
`UnmarshalJSON` can change the flag of the variable it is called on. -/
theorem validate_leaves_profile (env : Collaborators DO DR PR R)
    (dp : DeviceProfile DO DR PR R) (hflag : dp.isValidated = false)
    (hok : Validate env dp = (true, none)) :
    receiverAfter env dp Method.Validate = dp ∧
    (receiverAfter env dp Method.Validate).isValidated = false ∧
    Validate env (receiverAfter env dp Method.Validate) =
      (match env.validate dp with
        | some err => (false, some err)
        | none => (true, none)) ∧
    (∀ cmds : Slice (Command R),
      (∃ i j : Fin cmds.elems.length, i ≠ j ∧
        (cmds.elems.get i).Name = (cmds.elems.get j).Name) →
      Validate env { receiverAfter env dp Method.Validate with CoreCommands := cmds } =
        (false, some errDuplicateNames)) ∧
    Validate env { receiverAfter env dp Method.Validate with Id := "", Name := "" } =
      (false, some errBlankIdentity) ∧
    (∀ (q : DeviceProfile DO DR PR R) (m : Method),
      (receiverAfter env q m).isValidated ≠ q.isValidated → ∃ data, m = Method.UnmarshalJSON data)
    := by
  have hid : dp.Id ≠ "" ∨ dp.Name ≠ "" := by
    by_contra hc
    push_neg at hc
    rw [(Validate_unvalidated env dp hflag).1 hc] at hok
    cases hok
  have hd : DistinctNames dp.CoreCommands.elems := by
    by_contra hc
    rw [(Validate_unvalidated env dp hflag).2.1 hid hc] at hok
    cases hok
  refine ⟨rfl, hflag, (Validate_unvalidated env dp hflag).2.2 hid hd, ?_, ?_, ?_⟩
  · intro cmds hdup
    exact (Validate_unvalidated env { dp with CoreCommands := cmds } hflag).2.1 hid
      ((not_distinctNames_iff _).2 hdup)
  · exact (Validate_unvalidated env { dp with Id := "", Name := "" } hflag).1 ⟨rfl, rfl⟩
  · intro q m hne
    cases m with
    | UnmarshalJSON data => exact ⟨data, rfl⟩
    | MarshalJSON => exact absurd rfl hne
    | Validate => exact absurd rfl hne
    | String => exact absurd rfl hne

/-- Witness of C16: a directly constructed profile passes `Validate`, then gets the command
name `A` twice and fails with the duplicate-name error. -/
theorem validate_leaves_profile_witness :
    Validate sampleEnv namedProfile = (true, none) ∧
    (receiverAfter sampleEnv namedProfile Method.Validate).isValidated = false ∧
    Validate sampleEnv
      { receiverAfter sampleEnv namedProfile Method.Validate with
        CoreCommands := apartDuplicates } = (false, some errDuplicateNames) :=
  ⟨by decide, (validate_leaves_profile sampleEnv namedProfile rfl (by decide)).2.1,
    (validate_leaves_profile sampleEnv namedProfile rfl (by decide)).2.2.2.1 apartDuplicates
      ⟨⟨0, by decide⟩, ⟨2, by decide⟩, by decide, by decide⟩⟩

end ValidateBehaviourClaims

/-! ## The sequence fields after `UnmarshalJSON` -/

section SliceLemmas

variable {DO DR PR R : Type}

end SliceLemmas

section SliceClaims

variable {DO DR PR R : Type}

end SliceClaims

end models
